import Mathlib

/-!
# Verification of the nflogic NFe ingestion pipeline

Shallow embedding of the nflogic repository (src/nflogic/parse.py, cache.py,
db.py, api.py) and proofs about its claimed properties.

Modelling conventions:
* Python strings are lists of characters (`PyStr`); the string operations used
  by the code (`replace` with one-character patterns, `split`, `startswith`,
  `endswith`, `isdigit`, membership) are embedded as list functions.
* Python numbers are modelled exactly: `int` as `Int`, and the `float` values
  the program manipulates as decimal rationals `m / 10^e` (every float the
  program builds comes from `float()` of a decimal string); `str(float)`
  follows CPython's notation rule — plain decimal for decimal exponents in
  `[-4, 16)`, scientific otherwise.
* Fallible Python operations return `Option`/`Except`; an uncaught exception
  is an `Except.error` propagating to the caller.
-/

namespace NFLogic

/-- Python strings, modelled as lists of characters. -/
abbrev PyStr := List Char

/-! ## Decimal digits and Python `str`/`int`/`float` conversions -/

/-- Character of a decimal digit (`0 ≤ d ≤ 9`). -/
def digitChar (d : Nat) : Char :=
  match d with
  | 0 => '0' | 1 => '1' | 2 => '2' | 3 => '3' | 4 => '4'
  | 5 => '5' | 6 => '6' | 7 => '7' | 8 => '8' | _ => '9'

/-- Decimal value of a digit character, `none` for non-digits. -/
def charDigit (c : Char) : Option Nat :=
  if '0' ≤ c ∧ c ≤ '9' then some (c.toNat - '0'.toNat) else none

theorem charDigit_digitChar (d : Nat) (h : d < 10) : charDigit (digitChar d) = some d := by
  interval_cases d <;> decide

/-- Fuel-driven digit extraction (structural recursion so that terms compute
by `rfl`/`decide`); `fuel ≥ n` always suffices. -/
def natDigitsRevFuel : Nat → Nat → List Nat
  | 0, _ => []
  | _ + 1, 0 => []
  | fuel + 1, n + 1 => (n + 1) % 10 :: natDigitsRevFuel fuel ((n + 1) / 10)

/-- Base-10 digits of `n`, least significant first (`[]` for `0`). -/
def natDigitsRev (n : Nat) : List Nat :=
  natDigitsRevFuel n n

theorem natDigitsRevFuel_congr (m : Nat) :
    ∀ f g, m ≤ f → m ≤ g → natDigitsRevFuel f m = natDigitsRevFuel g m := by
  induction m using Nat.strong_induction_on with
  | _ m ih =>
    intro f g hf hg
    match m, f, g with
    | 0, 0, 0 => rfl
    | 0, 0, _ + 1 => rfl
    | 0, _ + 1, 0 => rfl
    | 0, _ + 1, _ + 1 => rfl
    | k + 1, a + 1, b + 1 =>
      show (k + 1) % 10 :: natDigitsRevFuel a ((k + 1) / 10) =
        (k + 1) % 10 :: natDigitsRevFuel b ((k + 1) / 10)
      rw [ih ((k + 1) / 10) (by omega) a b (by omega) (by omega)]

theorem natDigitsRev_succ (n : Nat) :
    natDigitsRev (n + 1) = (n + 1) % 10 :: natDigitsRev ((n + 1) / 10) := by
  show natDigitsRevFuel (n + 1) (n + 1) = (n + 1) % 10 :: natDigitsRevFuel ((n + 1) / 10) ((n + 1) / 10)
  rw [show natDigitsRevFuel (n + 1) (n + 1) =
        (n + 1) % 10 :: natDigitsRevFuel n ((n + 1) / 10) from rfl]
  rw [natDigitsRevFuel_congr ((n + 1) / 10) n ((n + 1) / 10) (by omega) (by omega)]

/-- Value of a least-significant-first digit list. -/
def lsbVal : List Nat → Nat
  | [] => 0
  | d :: ds => d + 10 * lsbVal ds

theorem lsbVal_natDigitsRev (n : Nat) : lsbVal (natDigitsRev n) = n := by
  induction n using Nat.strong_induction_on with
  | _ n ih =>
    match n with
    | 0 => simp [natDigitsRev, natDigitsRevFuel, lsbVal]
    | m + 1 =>
      rw [natDigitsRev_succ, lsbVal, ih ((m + 1) / 10) (by omega)]
      omega

theorem natDigitsRev_lt_ten (n : Nat) : ∀ d ∈ natDigitsRev n, d < 10 := by
  induction n using Nat.strong_induction_on with
  | _ n ih =>
    match n with
    | 0 => simp [natDigitsRev, natDigitsRevFuel]
    | m + 1 =>
      rw [natDigitsRev_succ]
      intro d hd
      rcases List.mem_cons.mp hd with h | h
      · omega
      · exact ih ((m + 1) / 10) (by omega) d h

/-- Base-10 digits of `n`, most significant first; `[0]` for `0` (as `str(0)`). -/
def natDigits (n : Nat) : List Nat :=
  if n = 0 then [0] else (natDigitsRev n).reverse

theorem natDigits_lt_ten (n : Nat) : ∀ d ∈ natDigits n, d < 10 := by
  unfold natDigits
  split
  · simp
  · intro d hd
    exact natDigitsRev_lt_ten n d (List.mem_reverse.mp hd)

theorem natDigits_ne_nil (n : Nat) : natDigits n ≠ [] := by
  unfold natDigits
  split
  · simp
  · rename_i h
    match hm : n with
    | 0 => exact absurd rfl h
    | m + 1 => rw [natDigitsRev_succ]; simp

/-- Value of a most-significant-first digit list. -/
def msbVal (ds : List Nat) : Nat :=
  ds.foldl (fun a d => a * 10 + d) 0

theorem foldl_digits_acc (ds : List Nat) (acc : Nat) :
    ds.foldl (fun a d => a * 10 + d) acc = acc * 10 ^ ds.length + msbVal ds := by
  induction ds generalizing acc with
  | nil => simp [msbVal]
  | cons d ds ih =>
    simp only [List.foldl_cons, msbVal, List.length_cons]
    rw [ih (acc * 10 + d), ih (0 * 10 + d)]
    ring

theorem msbVal_append (a b : List Nat) :
    msbVal (a ++ b) = msbVal a * 10 ^ b.length + msbVal b := by
  unfold msbVal
  rw [List.foldl_append, foldl_digits_acc]
  rfl

theorem msbVal_replicate_zero (k : Nat) (ds : List Nat) :
    msbVal (List.replicate k 0 ++ ds) = msbVal ds := by
  rw [msbVal_append]
  have : msbVal (List.replicate k 0) = 0 := by
    induction k with
    | zero => rfl
    | succ m ih =>
      have : List.replicate (m + 1) 0 = List.replicate m 0 ++ [0] := by
        rw [List.replicate_succ']
      rw [this, msbVal_append, ih]
      rfl
  simp [this]

theorem msbVal_natDigits (n : Nat) : msbVal (natDigits n) = n := by
  unfold natDigits
  split
  · simp_all [msbVal]
  · have hrev : ∀ l : List Nat, msbVal l.reverse = lsbVal l := by
      intro l
      induction l with
      | nil => rfl
      | cons d ds ih =>
        simp only [List.reverse_cons, lsbVal]
        rw [msbVal_append, ih]
        simp [msbVal]
        omega
    rw [hrev, lsbVal_natDigitsRev]

/-- `str(n)` for a natural number. -/
def natChars (n : Nat) : PyStr :=
  (natDigits n).map digitChar

/-- `str(n)` for a Python int (no plus sign, no leading zeros). -/
def intChars : Int → PyStr
  | .ofNat n => natChars n
  | .negSucc m => '-' :: natChars (m + 1)

/-- Digit-string accumulator used to model `int()` parsing. -/
def parseDigitsAcc (acc : Nat) : PyStr → Option Nat
  | [] => some acc
  | c :: cs =>
    match charDigit c with
    | some d => parseDigitsAcc (acc * 10 + d) cs
    | none => none

theorem parseDigitsAcc_map (ds : List Nat) (acc : Nat) (h : ∀ d ∈ ds, d < 10) :
    parseDigitsAcc acc (ds.map digitChar) = some (ds.foldl (fun a d => a * 10 + d) acc) := by
  induction ds generalizing acc with
  | nil => rfl
  | cons d ds ih =>
    simp only [List.map_cons, parseDigitsAcc, charDigit_digitChar d (h d (by simp))]
    exact ih _ (fun x hx => h x (by simp [hx]))

/-- Python `int(s)` on a non-signed body: all characters must be digits and
the string non-empty, otherwise `ValueError` (modelled as `none`).
Whitespace stripping, `+` signs and underscores accepted by CPython are
outside the model (the program never produces them). -/
def pyParseNatStr (s : PyStr) : Option Nat :=
  if s.isEmpty then none else parseDigitsAcc 0 s

/-- Python `int(s)`: optional minus sign then digits. -/
def pyParseInt (s : PyStr) : Option Int :=
  if s.head? = some '-' then (pyParseNatStr s.tail).map (fun n => -(n : Int))
  else (pyParseNatStr s).map (fun n => (n : Int))

theorem pyParseNatStr_natChars (n : Nat) : pyParseNatStr (natChars n) = some n := by
  unfold pyParseNatStr natChars
  rw [if_neg (by simp [natDigits_ne_nil n])]
  rw [parseDigitsAcc_map _ _ (natDigits_lt_ten n)]
  rw [show (natDigits n).foldl (fun a d => a * 10 + d) 0 = msbVal (natDigits n) from rfl]
  rw [msbVal_natDigits]

theorem natChars_head_digit (n : Nat) :
    ∃ c cs, natChars n = c :: cs ∧ c ≠ '-' := by
  unfold natChars
  match h : natDigits n with
  | [] => exact absurd h (natDigits_ne_nil n)
  | d :: ds =>
    refine ⟨digitChar d, ds.map digitChar, by simp, ?_⟩
    have hd : d < 10 := natDigits_lt_ten n d (by simp [h])
    interval_cases d <;> decide

theorem pyParseInt_intChars (n : Int) : pyParseInt (intChars n) = some n := by
  match n with
  | .ofNat m =>
    obtain ⟨c, cs, hc, hne⟩ := natChars_head_digit m
    show pyParseInt (natChars m) = some (Int.ofNat m)
    unfold pyParseInt
    rw [hc]
    rw [if_neg (by simp [hne])]
    rw [← hc, pyParseNatStr_natChars]
    rfl
  | .negSucc m =>
    show pyParseInt ('-' :: natChars (m + 1)) = some (Int.negSucc m)
    unfold pyParseInt
    simp only [List.head?_cons, List.tail_cons, if_pos rfl]
    rw [pyParseNatStr_natChars]
    simp [Int.negSucc_eq]

/-! ## Python numbers

`parse.py` manipulates `int` and `float` values.  Ints are exact.  The floats
the program handles all come from `float()` of plain decimal strings, and are
modelled exactly as decimal fixed-point numbers `m / 10 ^ e`; their `str()`
follows CPython's notation rule — plain decimal for decimal exponents in
`[-4, 16)`, scientific (`1e-05`, `1e+16`) outside — though with the digits of
`m` rather than the shortest-round-trip digits (`inf`/`nan` payloads are
outside the numeric model). -/

inductive PyNum where
  | pint : Int → PyNum
  | pfloat : Int → Nat → PyNum
deriving DecidableEq, Repr

/-- Exact rational value of a modelled Python number. -/
def numVal : PyNum → ℚ
  | .pint n => (n : ℚ)
  | .pfloat m e => (m : ℚ) / (10 : ℚ) ^ e

def leftPadZeros (k : Nat) (s : List Char) : List Char :=
  List.replicate (k - s.length) '0' ++ s

/-- `str(x)` of a modelled float `m / 10^e` rendered in plain decimal:
digits with the point inserted `e` places from the right; integral floats
render with a trailing `.0` exactly as CPython prints them. -/
def floatChars (m : Int) (e : Nat) : PyStr :=
  let ds := leftPadZeros (e + 1) (natChars m.natAbs)
  let sign : PyStr := if m < 0 then ['-'] else []
  if e = 0 then sign ++ ds ++ ['.', '0']
  else sign ++ ds.take (ds.length - e) ++ '.' :: ds.drop (ds.length - e)

/-- CPython renders a nonzero float in scientific notation exactly when its
decimal exponent — the position of the leading digit — is below `-4` or at
least `16`; for the value `m / 10^e` with `|m|` an `n`-digit number that
exponent is `n - 1 - e`. -/
def floatSci (m : Int) (e : Nat) : Bool :=
  decide (m ≠ 0) &&
    (decide ((natDigits m.natAbs).length + 4 ≤ e) ||
     decide (17 + e ≤ (natDigits m.natAbs).length))

/-- `str(x)` of a float rendered scientifically (`1e-05`, `-2.5e+16`): the
digits of `|m|` with a point after the leading digit when more digits
follow, then `e`, the decimal exponent's sign and its value padded to at
least two digits. -/
def sciChars (m : Int) (e : Nat) : PyStr :=
  let ds := (natDigits m.natAbs).map digitChar
  let exp : Int := (ds.length : Int) - 1 - (e : Int)
  let sign : PyStr := if m < 0 then ['-'] else []
  let mant : PyStr :=
    match ds with
    | [] => []
    | d :: rest => if rest.isEmpty then [d] else d :: '.' :: rest
  sign ++ mant ++ 'e' :: (if exp < 0 then '-' else '+') ::
    leftPadZeros 2 (natChars exp.natAbs)

/-- `str(x)` of a modelled Python number: ints always render plain; nonzero
floats with decimal exponent below `-4` or at least `16` render
scientifically, the rest in plain decimal. -/
def pyNumStr : PyNum → PyStr
  | .pint n => intChars n
  | .pfloat m e => if floatSci m e then sciChars m e else floatChars m e

/-- An element whose `str()` comes out in plain decimal notation: every
int, and the floats `floatSci` rejects. -/
def plainRendered : PyNum → Bool
  | .pint _ => true
  | .pfloat m e => !floatSci m e

/-- `str.split(sep)` for a one-character separator (Python semantics:
splitting the empty string gives `[""]`). -/
def splitSep (sep : Char) : PyStr → List PyStr
  | [] => [[]]
  | c :: cs =>
    match splitSep sep cs with
    | [] => [[]]
    | t :: ts => if c = sep then [] :: t :: ts else (c :: t) :: ts

def signApply (neg : Bool) (m : Int) : Int :=
  if neg then -m else m

/-- `float(s)` on the unsigned body: digits with at most one point, at least
one digit overall (`inf`, `nan` and exponent notation are outside the model —
the program's serialised lists never contain them when they validate). -/
def pyParseFloatBody (neg : Bool) (body : PyStr) : Option PyNum :=
  match splitSep '.' body with
  | [ip] => (pyParseNatStr ip).map (fun n => .pfloat (signApply neg (n : Int)) 0)
  | [ip, fp] =>
    if ip.isEmpty && fp.isEmpty then none
    else
      match parseDigitsAcc 0 ip, parseDigitsAcc 0 fp with
      | some i, some f =>
        some (.pfloat (signApply neg ((i * 10 ^ fp.length + f : Nat) : Int)) fp.length)
      | _, _ => none
  | _ => none

/-- Python `float(s)`: optional minus sign, then a decimal body. -/
def pyParseFloat (s : PyStr) : Option PyNum :=
  if s.head? = some '-' then pyParseFloatBody true s.tail
  else pyParseFloatBody false s

/-! ### Split/join helper lemmas -/

theorem digitChar_not_special (d : Nat) (h : d < 10) :
    digitChar d ∉ (['-', '.', ';', ',', ' ', '[', ']'] : List Char) := by
  interval_cases d <;> decide

theorem splitSep_no_sep (sep : Char) (s : PyStr) (h : sep ∉ s) :
    splitSep sep s = [s] := by
  induction s with
  | nil => rfl
  | cons c cs ih =>
    have hc : ¬ (c = sep) := fun hc => h (by simp [hc])
    rw [splitSep, ih (fun hm => h (List.mem_cons_of_mem c hm))]
    simp [hc]

theorem splitSep_append_sep (sep : Char) (x r : PyStr) (h : sep ∉ x) :
    splitSep sep (x ++ sep :: r) = x :: splitSep sep r := by
  induction x with
  | nil =>
    simp only [List.nil_append]
    rw [splitSep]
    cases hr : splitSep sep r with
    | nil => simp [hr]
    | cons t ts => simp [hr]
  | cons c cs ih =>
    have hc : ¬ (c = sep) := fun hc => h (by simp [hc])
    have hcs : sep ∉ cs := fun hm => h (List.mem_cons_of_mem c hm)
    simp only [List.cons_append]
    rw [splitSep, ih hcs]
    simp [hc]

/-! ### Digit-list parsing facts for padded/split strings -/

theorem parseDigitsAcc_msb (ds : List Nat) (h : ∀ d ∈ ds, d < 10) :
    parseDigitsAcc 0 (ds.map digitChar) = some (msbVal ds) := by
  rw [parseDigitsAcc_map ds 0 h]
  rfl

theorem map_digitChar_no_special (ds : List Nat) (h : ∀ d ∈ ds, d < 10) :
    ∀ c ∈ ds.map digitChar,
      c ∉ (['-', '.', ';', ',', ' ', '[', ']'] : List Char) := by
  intro c hc
  obtain ⟨d, hd, rfl⟩ := List.mem_map.mp hc
  exact digitChar_not_special d (h d hd)

/-- The full digit list (padding plus digits of `|m|`) used by `floatChars`. -/
def floatDigits (m : Int) (e : Nat) : List Nat :=
  List.replicate (e + 1 - (natDigits m.natAbs).length) 0 ++ natDigits m.natAbs

theorem floatDigits_lt_ten (m : Int) (e : Nat) : ∀ d ∈ floatDigits m e, d < 10 := by
  intro d hd
  rcases List.mem_append.mp hd with h | h
  · have := List.eq_of_mem_replicate h
    omega
  · exact natDigits_lt_ten _ d h

theorem floatDigits_msbVal (m : Int) (e : Nat) : msbVal (floatDigits m e) = m.natAbs := by
  unfold floatDigits
  rw [msbVal_replicate_zero, msbVal_natDigits]

theorem floatDigits_length (m : Int) (e : Nat) : e + 1 ≤ (floatDigits m e).length := by
  unfold floatDigits
  have h1 : (natDigits m.natAbs).length ≠ 0 := by
    simp [natDigits_ne_nil m.natAbs]
  simp only [List.length_append, List.length_replicate]
  omega

theorem floatDigits_map (m : Int) (e : Nat) :
    leftPadZeros (e + 1) (natChars m.natAbs) = (floatDigits m e).map digitChar := by
  unfold leftPadZeros floatDigits natChars
  rw [List.map_append, List.map_replicate, List.length_map]
  rfl

/-- The unsigned part of `floatChars`. -/
def floatBody (m : Int) (e : Nat) : PyStr :=
  let ds := leftPadZeros (e + 1) (natChars m.natAbs)
  if e = 0 then ds ++ ['.', '0'] else ds.take (ds.length - e) ++ '.' :: ds.drop (ds.length - e)

theorem floatChars_eq_sign_body (m : Int) (e : Nat) :
    floatChars m e = (if m < 0 then ['-'] else []) ++ floatBody m e := by
  unfold floatChars floatBody
  by_cases he : e = 0 <;> simp [he]

theorem floatBody_head (m : Int) (e : Nat) :
    ∃ c rest, floatBody m e = c :: rest ∧ c ≠ '-' := by
  have hmap := floatDigits_map m e
  have hlen : e + 1 ≤ (floatDigits m e).length := floatDigits_length m e
  have hspec := map_digitChar_no_special (floatDigits m e) (floatDigits_lt_ten m e)
  unfold floatBody
  match hD : floatDigits m e with
  | [] => rw [hD] at hlen; simp at hlen
  | d :: D =>
    rw [hD] at hmap hspec hlen
    rw [hmap]
    simp only [List.map_cons] at hspec ⊢
    have hd : digitChar d ≠ '-' := by
      have := hspec (digitChar d) (by simp)
      simp at this
      exact this.1
    by_cases he : e = 0
    · rw [if_pos he]
      exact ⟨digitChar d, _, rfl, hd⟩
    · rw [if_neg he]
      have ht : (digitChar d :: D.map digitChar).length - e = ((d :: D).length - e - 1) + 1 := by
        simp at hlen ⊢
        omega
      rw [ht, List.take_succ_cons]
      exact ⟨digitChar d, _, rfl, hd⟩

theorem pyParseFloatBody_floatBody (neg : Bool) (m : Int) (e : Nat) :
    ∃ m2 e2, pyParseFloatBody neg (floatBody m e) = some (.pfloat (signApply neg m2) e2) ∧
      (m2 : ℚ) / (10 : ℚ) ^ e2 = (m.natAbs : ℚ) / (10 : ℚ) ^ e := by
  have hmap := floatDigits_map m e
  have hlen : e + 1 ≤ (floatDigits m e).length := floatDigits_length m e
  have hlt := floatDigits_lt_ten m e
  have hspec := map_digitChar_no_special (floatDigits m e) hlt
  have hdot : '.' ∉ (floatDigits m e).map digitChar := by
    intro hm
    have := hspec '.' hm
    simp at this
  have hne : (floatDigits m e).map digitChar ≠ [] := by
    intro h
    have : (floatDigits m e).length = 0 := by
      simpa using congrArg List.length h
    omega
  by_cases he : e = 0
  · -- integral float: body is `digits ++ ".0"`
    subst he
    refine ⟨(m.natAbs : Int) * 10 + 0, 1, ?_, ?_⟩
    · unfold floatBody pyParseFloatBody
      rw [if_pos rfl, hmap]
      have hsplit : splitSep '.' ((floatDigits m 0).map digitChar ++ ['.', '0']) =
          ((floatDigits m 0).map digitChar) :: splitSep '.' ['0'] := by
        exact splitSep_append_sep '.' _ ['0'] hdot
      rw [show ((floatDigits m 0).map digitChar ++ ['.', '0']) =
            ((floatDigits m 0).map digitChar ++ '.' :: ['0']) from by simp, hsplit]
      rw [splitSep_no_sep '.' ['0'] (by decide)]
      simp only []
      rw [if_neg (by simp [hne])]
      rw [parseDigitsAcc_msb _ hlt, floatDigits_msbVal]
      simp [parseDigitsAcc, charDigit]
    · generalize m.natAbs = n
      push_cast
      field_simp
  · -- e > 0: body is `take ++ "." ++ drop`
    set D := floatDigits m e with hDdef
    set ds := D.map digitChar with hds
    set t := ds.length - e with htdef
    have hlends : ds.length = D.length := by simp [hds]
    have htle : t ≤ ds.length := by omega
    have hdrop_len : (D.drop t).length = e := by
      rw [List.length_drop, htdef, hlends]
      omega
    refine ⟨(msbVal (D.take t) * 10 ^ e + msbVal (D.drop t) : Nat), e, ?_, ?_⟩
    · unfold floatBody pyParseFloatBody
      rw [if_neg he, hmap]
      have htake_map : ds.take t = (D.take t).map digitChar := by
        rw [hds, List.map_take]
      have hdrop_map : ds.drop t = (D.drop t).map digitChar := by
        rw [hds, List.map_drop]
      have hdot_take : '.' ∉ ds.take t := fun hm => hdot (List.take_subset t ds hm)
      have hsplit : splitSep '.' (ds.take t ++ '.' :: ds.drop t) =
          (ds.take t) :: splitSep '.' (ds.drop t) := splitSep_append_sep '.' _ _ hdot_take
      have hdot_drop : '.' ∉ ds.drop t := fun hm => hdot (List.drop_subset t ds hm)
      rw [hsplit, splitSep_no_sep '.' _ hdot_drop]
      simp only []
      have htake_ne : ds.take t ≠ [] := by
        have h1 : (ds.take t).length = t := by
          rw [List.length_take]
          omega
        intro h
        rw [h] at h1
        simp at h1
        omega
      rw [if_neg (by simp [htake_ne])]
      rw [htake_map, hdrop_map]
      rw [parseDigitsAcc_msb _ (fun d hd => hlt d (List.take_subset t D hd))]
      rw [parseDigitsAcc_msb _ (fun d hd => hlt d (List.drop_subset t D hd))]
      simp only [List.length_map, hdrop_len]
    · have hval : msbVal (D.take t) * 10 ^ e + msbVal (D.drop t) = m.natAbs := by
        have := msbVal_append (D.take t) (D.drop t)
        rw [List.take_append_drop, hdrop_len] at this
        rw [← this, floatDigits_msbVal]
      rw [hval]
      simp only [Int.cast_natCast]

theorem pyParseFloat_floatChars (m : Int) (e : Nat) :
    ∃ p, pyParseFloat (floatChars m e) = some p ∧ numVal p = numVal (.pfloat m e) := by
  rw [floatChars_eq_sign_body]
  by_cases hm : m < 0
  · obtain ⟨m2, e2, hp, hv⟩ := pyParseFloatBody_floatBody true m e
    refine ⟨.pfloat (signApply true m2) e2, ?_, ?_⟩
    · rw [if_pos hm]
      unfold pyParseFloat
      simp only [List.singleton_append, List.head?_cons, List.tail_cons, if_pos rfl]
      exact hp
    · have hnat : ((m.natAbs : ℚ)) = -(m : ℚ) := by
        rw [Int.cast_natAbs, abs_of_neg hm]
        push_cast
        ring
      have hsa : signApply true m2 = -m2 := rfl
      rw [hsa]
      simp only [numVal, Int.cast_neg]
      rw [neg_div, hv, hnat]
      ring
  · obtain ⟨m2, e2, hp, hv⟩ := pyParseFloatBody_floatBody false m e
    obtain ⟨c, rest, hbody, hcne⟩ := floatBody_head m e
    refine ⟨.pfloat (signApply false m2) e2, ?_, ?_⟩
    · rw [if_neg hm]
      unfold pyParseFloat
      rw [List.nil_append, hbody]
      rw [if_neg (by simp [hcne])]
      rw [← hbody]
      exact hp
    · have hnat : ((m.natAbs : ℚ)) = (m : ℚ) := by
        rw [Int.cast_natAbs, abs_of_nonneg (not_lt.mp hm)]
      have hsa : signApply false m2 = m2 := rfl
      rw [hsa]
      simp only [numVal]
      rw [hv, hnat]

/-! ## parse.py — the NumberListString serialiser

`convert_to_list_of_numbers` (parse.py lines 99-108) and
`convert_from_list_of_numbers` (lines 111-115). -/

/-- `any(isinstance(item, (float, str)) for item in inp)`; the serialised
lists built by `_get_pay` contain ints and floats only. -/
def anyFloatLike (l : List PyNum) : Bool :=
  l.any (fun x => match x with | .pint _ => false | .pfloat _ _ => true)

/-- `float(i)` element coercion. -/
def pyFloatCoerce : PyNum → PyNum
  | .pint n => .pfloat n 0
  | x => x

/-- `int(i)` element coercion (on the int branch every element is an int;
truncation-toward-zero of a float is included for totality). -/
def pyIntCoerce : PyNum → PyNum
  | .pint n => .pint n
  | .pfloat m e => .pint (Int.tdiv m (10 ^ e))

/-- The comma-space separated element list inside `str(list)`. -/
def pyListStrBody : List PyStr → PyStr
  | [] => []
  | [x] => x
  | x :: y :: r => x ++ ',' :: ' ' :: pyListStrBody (y :: r)

/-- `str.replace(c, r)` for a one-character pattern `c`. -/
def pyReplace (c : Char) (r : PyStr) : PyStr → PyStr
  | [] => []
  | a :: s => (if a = c then r else [a]) ++ pyReplace c r s

/-- `convert_to_list_of_numbers` on a list input: coerce every element to
float if any element is float-like, to int otherwise, then take `str(inp)`
and apply `.replace(",", ";").replace(" ", "").replace("[", "").replace("]", "")`.
(The scalar branch, `str(inp)` for a bare number, is not reached by the list
round-trip claims and is omitted.) -/
def convert_to_list_of_numbers (l : List PyNum) : PyStr :=
  let l2 := if anyFloatLike l then l.map pyFloatCoerce else l.map pyIntCoerce
  pyReplace ']' [] (pyReplace '[' [] (pyReplace ' ' []
    (pyReplace ',' [';'] ('[' :: pyListStrBody (l2.map pyNumStr) ++ [']']))))

/-- `convert_from_list_of_numbers`: strip brackets, split on `;`, and parse
every chunk with `int` if the whole string has no point, with `float`
otherwise.  A chunk rejected by `int()`/`float()` raises `ValueError`
(modelled as `Except.error ()`). -/
def convert_from_list_of_numbers (s : PyStr) : Except Unit (List PyNum) :=
  let nums := splitSep ';' (pyReplace ']' [] (pyReplace '[' [] s))
  if '.' ∈ s then
    match nums.mapM pyParseFloat with
    | some l => .ok l
    | none => .error ()
  else
    match nums.mapM pyParseInt with
    | some l => .ok (l.map .pint)
    | none => .error ()

/-! ### The replace chain rewrites `str(list)` into a `;`-joined string -/

/-- The composed replace chain of `convert_to_list_of_numbers`. -/
def replaceChain (s : PyStr) : PyStr :=
  pyReplace ']' [] (pyReplace '[' [] (pyReplace ' ' [] (pyReplace ',' [';'] s)))

/-- `;`-joined strings (the shape `convert_to_list_of_numbers` produces). -/
def joinSemi : List PyStr → PyStr
  | [] => []
  | [x] => x
  | x :: y :: r => x ++ ';' :: joinSemi (y :: r)

theorem pyReplace_append (c : Char) (r a b : PyStr) :
    pyReplace c r (a ++ b) = pyReplace c r a ++ pyReplace c r b := by
  induction a with
  | nil => rfl
  | cons x xs ih => simp [pyReplace, ih]

theorem replaceChain_append (a b : PyStr) :
    replaceChain (a ++ b) = replaceChain a ++ replaceChain b := by
  unfold replaceChain
  rw [pyReplace_append, pyReplace_append, pyReplace_append, pyReplace_append]

/-- Characters untouched by the replace chain. -/
def chainClean (s : PyStr) : Prop :=
  ∀ c ∈ s, c ≠ ',' ∧ c ≠ ' ' ∧ c ≠ '[' ∧ c ≠ ']'

theorem replaceChain_clean (s : PyStr) (h : chainClean s) : replaceChain s = s := by
  induction s with
  | nil => rfl
  | cons x xs ih =>
    have hx := h x (by simp)
    have hxs : chainClean xs := fun c hc => h c (by simp [hc])
    have : ([x] : PyStr) ++ xs = x :: xs := rfl
    rw [← this, replaceChain_append, ih hxs]
    congr 1
    unfold replaceChain pyReplace
    simp [hx.1, hx.2.1, hx.2.2.1, hx.2.2.2, pyReplace]

theorem replaceChain_body (xs : List PyStr) (h : ∀ x ∈ xs, chainClean x) :
    replaceChain (pyListStrBody xs) = joinSemi xs := by
  match xs with
  | [] => rfl
  | [x] =>
    show replaceChain (pyListStrBody [x]) = joinSemi [x]
    rw [show pyListStrBody [x] = x from rfl, show joinSemi [x] = x from rfl]
    exact replaceChain_clean x (h x (by simp))
  | x :: y :: r =>
    show replaceChain (x ++ ',' :: ' ' :: pyListStrBody (y :: r)) = x ++ ';' :: joinSemi (y :: r)
    have h1 : (',' :: ' ' :: pyListStrBody (y :: r) : PyStr) =
        [','] ++ [' '] ++ pyListStrBody (y :: r) := rfl
    rw [h1, replaceChain_append, replaceChain_append, replaceChain_append]
    rw [replaceChain_clean x (h x (by simp))]
    rw [replaceChain_body (y :: r) (fun z hz => h z (by simp [hz]))]
    rfl

theorem replaceChain_listStr (xs : List PyStr) (h : ∀ x ∈ xs, chainClean x) :
    replaceChain ('[' :: pyListStrBody xs ++ [']']) = joinSemi xs := by
  have h1 : ('[' :: pyListStrBody xs ++ [']'] : PyStr) =
      ['['] ++ pyListStrBody xs ++ [']'] := rfl
  rw [h1, replaceChain_append, replaceChain_append, replaceChain_body xs h]
  rw [show replaceChain ['['] = [] from by decide, show replaceChain [']'] = [] from by decide]
  simp

theorem joinSemi_split (xs : List PyStr) (hne : xs ≠ []) (h : ∀ x ∈ xs, ';' ∉ x) :
    splitSep ';' (joinSemi xs) = xs := by
  match xs with
  | [] => exact absurd rfl hne
  | [x] =>
    rw [show joinSemi [x] = x from rfl]
    exact splitSep_no_sep ';' x (h x (by simp))
  | x :: y :: r =>
    rw [show joinSemi (x :: y :: r) = x ++ ';' :: joinSemi (y :: r) from rfl]
    rw [splitSep_append_sep ';' x _ (h x (by simp))]
    rw [joinSemi_split (y :: r) (by simp) (fun z hz => h z (by simp [hz]))]

/-! ### Character inventories of the number reprs -/

theorem intChars_chars (n : Int) :
    ∀ c ∈ intChars n, c = '-' ∨ ∃ d, d < 10 ∧ c = digitChar d := by
  intro c hc
  have hnat : ∀ k : Nat, ∀ x ∈ natChars k, ∃ d, d < 10 ∧ x = digitChar d := by
    intro k x hx
    obtain ⟨d, hd, rfl⟩ := List.mem_map.mp hx
    exact ⟨d, natDigits_lt_ten k d hd, rfl⟩
  match n with
  | .ofNat m => exact Or.inr (hnat m c hc)
  | .negSucc m =>
    rcases List.mem_cons.mp hc with h | h
    · exact Or.inl h
    · exact Or.inr (hnat (m + 1) c h)

theorem floatChars_chars (m : Int) (e : Nat) :
    ∀ c ∈ floatChars m e, c = '-' ∨ c = '.' ∨ ∃ d, d < 10 ∧ c = digitChar d := by
  intro c hc
  rw [floatChars_eq_sign_body] at hc
  rcases List.mem_append.mp hc with h | h
  · left
    split at h <;> simp_all
  · have hds : ∀ x ∈ leftPadZeros (e + 1) (natChars m.natAbs),
        ∃ d, d < 10 ∧ x = digitChar d := by
      rw [floatDigits_map]
      intro x hx
      obtain ⟨d, hd, rfl⟩ := List.mem_map.mp hx
      exact ⟨d, floatDigits_lt_ten m e d hd, rfl⟩
    simp only [floatBody] at h
    split at h
    · rcases List.mem_append.mp h with h2 | h2
      · exact Or.inr (Or.inr (hds c h2))
      · rcases List.mem_cons.mp h2 with rfl | h3
        · exact Or.inr (Or.inl rfl)
        · have hc0 : c = '0' := List.mem_singleton.mp h3
          subst hc0
          exact Or.inr (Or.inr ⟨0, by omega, rfl⟩)
    · rcases List.mem_append.mp h with h2 | h2
      · exact Or.inr (Or.inr (hds c (List.take_subset _ _ h2)))
      · rcases List.mem_cons.mp h2 with rfl | h3
        · exact Or.inr (Or.inl rfl)
        · exact Or.inr (Or.inr (hds c (List.drop_subset _ _ h3)))

theorem digitChar_clean (d : Nat) (hd : d < 10) :
    digitChar d ≠ ',' ∧ digitChar d ≠ ' ' ∧ digitChar d ≠ '[' ∧ digitChar d ≠ ']' := by
  interval_cases d <;> decide

theorem digitChar_ne_semi (d : Nat) (hd : d < 10) : digitChar d ≠ ';' := by
  interval_cases d <;> decide

theorem digitChar_ne_dot (d : Nat) (hd : d < 10) : digitChar d ≠ '.' := by
  interval_cases d <;> decide

theorem intChars_clean (n : Int) : chainClean (intChars n) := by
  intro c hc
  rcases intChars_chars n c hc with rfl | ⟨d, hd, rfl⟩
  · exact ⟨by decide, by decide, by decide, by decide⟩
  · exact digitChar_clean d hd

theorem floatChars_clean (m : Int) (e : Nat) : chainClean (floatChars m e) := by
  intro c hc
  rcases floatChars_chars m e c hc with rfl | rfl | ⟨d, hd, rfl⟩
  · exact ⟨by decide, by decide, by decide, by decide⟩
  · exact ⟨by decide, by decide, by decide, by decide⟩
  · exact digitChar_clean d hd

theorem intChars_no_semi (n : Int) : ';' ∉ intChars n := by
  intro hc
  rcases intChars_chars n ';' hc with h | ⟨d, hd, h⟩
  · exact absurd h (by decide)
  · exact digitChar_ne_semi d hd h.symm

theorem floatChars_no_semi (m : Int) (e : Nat) : ';' ∉ floatChars m e := by
  intro hc
  rcases floatChars_chars m e ';' hc with h | h | ⟨d, hd, h⟩
  · exact absurd h (by decide)
  · exact absurd h (by decide)
  · exact digitChar_ne_semi d hd h.symm

theorem intChars_no_dot (n : Int) : '.' ∉ intChars n := by
  intro hc
  rcases intChars_chars n '.' hc with h | ⟨d, hd, h⟩
  · exact absurd h (by decide)
  · exact digitChar_ne_dot d hd h.symm

theorem floatChars_has_dot (m : Int) (e : Nat) : '.' ∈ floatChars m e := by
  rw [floatChars_eq_sign_body]
  apply List.mem_append_right
  simp only [floatBody]
  split
  · exact List.mem_append_right _ (by simp)
  · exact List.mem_append_right _ (by simp)

theorem sciChars_chars (m : Int) (e : Nat) :
    ∀ c ∈ sciChars m e,
      c = '-' ∨ c = '.' ∨ c = 'e' ∨ c = '+' ∨ ∃ d, d < 10 ∧ c = digitChar d := by
  have hnat : ∀ k : Nat, ∀ x ∈ natChars k, ∃ d, d < 10 ∧ x = digitChar d := by
    intro k x hx
    obtain ⟨d, hd, rfl⟩ := List.mem_map.mp hx
    exact ⟨d, natDigits_lt_ten k d hd, rfl⟩
  have hds : ∀ x ∈ (natDigits m.natAbs).map digitChar,
      ∃ d, d < 10 ∧ x = digitChar d := by
    intro x hx
    obtain ⟨d, hd, rfl⟩ := List.mem_map.mp hx
    exact ⟨d, natDigits_lt_ten m.natAbs d hd, rfl⟩
  intro c hc
  simp only [sciChars] at hc
  rcases List.mem_append.mp hc with h | h
  · rcases List.mem_append.mp h with h1 | h1
    · left
      split at h1 <;> simp_all
    · -- mantissa: digits and at most one point
      rcases hm : (natDigits m.natAbs).map digitChar with _ | ⟨d0, rest⟩ <;>
        rw [hm] at h1
      · simp at h1
      · have hd0 : ∃ d, d < 10 ∧ d0 = digitChar d := hds d0 (by rw [hm]; simp)
        have h1' : c ∈ (if rest.isEmpty = true then [d0] else d0 :: '.' :: rest) := h1
        by_cases hre : rest.isEmpty = true
        · rw [if_pos hre] at h1'
          have hc0 : c = d0 := List.mem_singleton.mp h1'
          subst hc0
          exact Or.inr (Or.inr (Or.inr (Or.inr hd0)))
        · rw [if_neg hre] at h1'
          rcases List.mem_cons.mp h1' with rfl | h2
          · exact Or.inr (Or.inr (Or.inr (Or.inr hd0)))
          · rcases List.mem_cons.mp h2 with rfl | h3
            · exact Or.inr (Or.inl rfl)
            · refine Or.inr (Or.inr (Or.inr (Or.inr (hds c ?_))))
              rw [hm]
              exact List.mem_cons_of_mem d0 h3
  · rcases List.mem_cons.mp h with rfl | h1
    · exact Or.inr (Or.inr (Or.inl rfl))
    · rcases List.mem_cons.mp h1 with rfl | h2
      · split
        · exact Or.inl rfl
        · exact Or.inr (Or.inr (Or.inr (Or.inl rfl)))
      · rcases List.mem_append.mp h2 with h3 | h3
        · have : c = '0' := List.eq_of_mem_replicate h3
          subst this
          exact Or.inr (Or.inr (Or.inr (Or.inr ⟨0, by omega, rfl⟩)))
        · exact Or.inr (Or.inr (Or.inr (Or.inr (hnat _ c h3))))

theorem sciChars_clean (m : Int) (e : Nat) : chainClean (sciChars m e) := by
  intro c hc
  rcases sciChars_chars m e c hc with rfl | rfl | rfl | rfl | ⟨d, hd, rfl⟩
  · exact ⟨by decide, by decide, by decide, by decide⟩
  · exact ⟨by decide, by decide, by decide, by decide⟩
  · exact ⟨by decide, by decide, by decide, by decide⟩
  · exact ⟨by decide, by decide, by decide, by decide⟩
  · exact digitChar_clean d hd

theorem sciChars_no_semi (m : Int) (e : Nat) : ';' ∉ sciChars m e := by
  intro hc
  rcases sciChars_chars m e ';' hc with h | h | h | h | ⟨d, hd, h⟩
  · exact absurd h (by decide)
  · exact absurd h (by decide)
  · exact absurd h (by decide)
  · exact absurd h (by decide)
  · exact digitChar_ne_semi d hd h.symm

theorem pyNumStr_clean (x : PyNum) : chainClean (pyNumStr x) := by
  match x with
  | .pint n => exact intChars_clean n
  | .pfloat m e =>
    show chainClean (if floatSci m e then sciChars m e else floatChars m e)
    split
    · exact sciChars_clean m e
    · exact floatChars_clean m e

theorem pyNumStr_no_semi (x : PyNum) : ';' ∉ pyNumStr x := by
  match x with
  | .pint n => exact intChars_no_semi n
  | .pfloat m e =>
    show ';' ∉ (if floatSci m e then sciChars m e else floatChars m e)
    split
    · exact sciChars_no_semi m e
    · exact floatChars_no_semi m e

theorem pyNumStr_plain (m : Int) (e : Nat) (h : floatSci m e = false) :
    pyNumStr (.pfloat m e) = floatChars m e := by
  show (if floatSci m e then sciChars m e else floatChars m e) = floatChars m e
  rw [h]
  rfl

theorem joinSemi_chars (xs : List PyStr) :
    ∀ c ∈ joinSemi xs, c = ';' ∨ ∃ x ∈ xs, c ∈ x := by
  match xs with
  | [] => simp [joinSemi]
  | [x] =>
    intro c hc
    exact Or.inr ⟨x, by simp, hc⟩
  | x :: y :: r =>
    intro c hc
    rw [show joinSemi (x :: y :: r) = x ++ ';' :: joinSemi (y :: r) from rfl] at hc
    rcases List.mem_append.mp hc with h | h
    · exact Or.inr ⟨x, by simp, h⟩
    · rcases List.mem_cons.mp h with rfl | h2
      · exact Or.inl rfl
      · rcases joinSemi_chars (y :: r) c h2 with h3 | ⟨z, hz, hcz⟩
        · exact Or.inl h3
        · exact Or.inr ⟨z, by simp [List.mem_cons.mp hz], hcz⟩

theorem joinSemi_mem_head (x : PyStr) (r : List PyStr) (c : Char) (h : c ∈ x) :
    c ∈ joinSemi (x :: r) := by
  match r with
  | [] => exact h
  | y :: t =>
    rw [show joinSemi (x :: y :: t) = x ++ ';' :: joinSemi (y :: t) from rfl]
    exact List.mem_append_left _ h

theorem pyReplace_not_mem (c : Char) (r s : PyStr) (h : c ∉ s) : pyReplace c r s = s := by
  induction s with
  | nil => rfl
  | cons a t ih =>
    have ha : ¬ (a = c) := fun hac => h (by simp [hac])
    simp [pyReplace, ha, ih (fun hm => h (by simp [hm]))]

/-! ### mapM facts (Option monad) -/

theorem mapM_map_option {α β γ : Type} (f : α → β) (p : β → Option γ) (g : α → γ)
    (xs : List α) (h : ∀ x ∈ xs, p (f x) = some (g x)) :
    (xs.map f).mapM p = some (xs.map g) := by
  induction xs with
  | nil => rfl
  | cons a t ih =>
    rw [List.map_cons, List.mapM_cons, h a (by simp),
      ih (fun x hx => h x (by simp [hx]))]
    rfl

theorem mapM_pyParseFloat (l : List PyNum)
    (hpl : ∀ x ∈ l.map pyFloatCoerce, plainRendered x = true) :
    ∃ ys, ((l.map pyFloatCoerce).map pyNumStr).mapM pyParseFloat = some ys ∧
      List.Forall₂ (fun a b => numVal a = numVal b) l ys := by
  induction l with
  | nil => exact ⟨[], rfl, List.Forall₂.nil⟩
  | cons a l ih =>
    obtain ⟨ys, hys, hall⟩ := ih (fun x hx => hpl x (by
      rw [List.map_cons]
      exact List.mem_cons_of_mem _ hx))
    obtain ⟨ma, ea, hcoe, hval⟩ : ∃ ma ea, pyFloatCoerce a = .pfloat ma ea ∧
        numVal (.pfloat ma ea) = numVal a := by
      match a with
      | .pint n => exact ⟨n, 0, rfl, by simp [numVal]⟩
      | .pfloat m e => exact ⟨m, e, rfl, rfl⟩
    have hsci : floatSci ma ea = false := by
      have := hpl (pyFloatCoerce a) (by rw [List.map_cons]; exact List.mem_cons_self _ _)
      rw [hcoe] at this
      simpa [plainRendered] using this
    obtain ⟨p, hp, hpv⟩ := pyParseFloat_floatChars ma ea
    refine ⟨p :: ys, ?_, List.Forall₂.cons ((hpv.trans hval).symm) hall⟩
    rw [List.map_cons, List.map_cons, List.mapM_cons, hcoe]
    rw [pyNumStr_plain ma ea hsci, hp, hys]
    rfl

/-! ### convert_to reduces to a `;`-joined list of number reprs -/

theorem convert_to_int_case (l : List PyNum) (hf : anyFloatLike l = false) :
    convert_to_list_of_numbers l = joinSemi ((l.map pyIntCoerce).map pyNumStr) := by
  unfold convert_to_list_of_numbers
  rw [hf]
  simp only [Bool.false_eq_true, if_false]
  apply replaceChain_listStr
  intro x hx
  obtain ⟨y, hy, rfl⟩ := List.mem_map.mp hx
  exact pyNumStr_clean y

theorem convert_to_float_case (l : List PyNum) (hf : anyFloatLike l = true) :
    convert_to_list_of_numbers l = joinSemi ((l.map pyFloatCoerce).map pyNumStr) := by
  unfold convert_to_list_of_numbers
  rw [hf]
  simp only [if_true]
  apply replaceChain_listStr
  intro x hx
  obtain ⟨y, hy, rfl⟩ := List.mem_map.mp hx
  exact pyNumStr_clean y

/-- Extract the int from a `pint` (the int branch only sees `pint`s). -/
def pintVal : PyNum → Int
  | .pint n => n
  | .pfloat _ _ => 0

theorem c5_roundtrip_core (l : List PyNum) (hne : l ≠ [])
    (hpl : ∀ x ∈ (if anyFloatLike l then l.map pyFloatCoerce
      else l.map pyIntCoerce), plainRendered x = true) :
    ∃ l2, convert_from_list_of_numbers (convert_to_list_of_numbers l) = .ok l2 ∧
      List.Forall₂ (fun a b => numVal a = numVal b) l l2 := by
  by_cases hf : anyFloatLike l = true
  · -- float branch
    rw [if_pos hf] at hpl
    rw [convert_to_float_case l hf]
    set strs := (l.map pyFloatCoerce).map pyNumStr with hstrs
    have hflt : ∀ x ∈ strs, ∃ m e, x = floatChars m e := by
      intro x hx
      obtain ⟨y, hy, rfl⟩ := List.mem_map.mp hx
      obtain ⟨my, ey, hye⟩ : ∃ my ey, y = PyNum.pfloat my ey := by
        obtain ⟨z, hz, rfl⟩ := List.mem_map.mp hy
        match z with
        | .pint n => exact ⟨n, 0, rfl⟩
        | .pfloat m e => exact ⟨m, e, rfl⟩
      have hsci : floatSci my ey = false := by
        have := hpl y hy
        rw [hye] at this
        simpa [plainRendered] using this
      subst hye
      exact ⟨my, ey, pyNumStr_plain my ey hsci⟩
    have hclean : ∀ c ∈ joinSemi strs, c ≠ '[' ∧ c ≠ ']' := by
      intro c hc
      rcases joinSemi_chars strs c hc with rfl | ⟨x, hx, hcx⟩
      · exact ⟨by decide, by decide⟩
      · obtain ⟨m, e, rfl⟩ := hflt x hx
        have := floatChars_clean m e c hcx
        exact ⟨this.2.2.1, this.2.2.2⟩
    have hstrip : pyReplace ']' [] (pyReplace '[' [] (joinSemi strs)) = joinSemi strs := by
      rw [pyReplace_not_mem _ _ _ (fun hm => (hclean '[' hm).1 rfl)]
      rw [pyReplace_not_mem _ _ _ (fun hm => (hclean ']' hm).2 rfl)]
    have hdot : '.' ∈ joinSemi strs := by
      match hl : l with
      | [] => exact absurd rfl hne
      | a :: t =>
        have hmem : pyNumStr (pyFloatCoerce a) ∈ strs := by
          rw [hstrs]
          simp
        obtain ⟨m, e, hx⟩ := hflt _ hmem
        have hdotx : '.' ∈ pyNumStr (pyFloatCoerce a) := by
          rw [hx]
          exact floatChars_has_dot m e
        rw [hstrs]
        simp only [List.map_cons]
        exact joinSemi_mem_head _ _ '.' hdotx
    have hsplit : splitSep ';' (joinSemi strs) = strs := by
      apply joinSemi_split
      · rw [hstrs]
        simp [hne]
      · intro x hx
        obtain ⟨m, e, rfl⟩ := hflt x hx
        exact floatChars_no_semi m e
    obtain ⟨ys, hys, hall⟩ := mapM_pyParseFloat l hpl
    rw [← hstrs] at hys
    refine ⟨ys, ?_, hall⟩
    simp only [convert_from_list_of_numbers]
    rw [hstrip, if_pos hdot, hsplit, hys]
  · -- int branch: every element is a pint
    have hf2 : anyFloatLike l = false := by
      cases h : anyFloatLike l
      · rfl
      · exact absurd h hf
    have hpint : ∀ x ∈ l, ∃ n, x = PyNum.pint n := by
      intro x hx
      match x with
      | .pint n => exact ⟨n, rfl⟩
      | .pfloat m e =>
        exfalso
        apply hf
        unfold anyFloatLike
        rw [List.any_eq_true]
        exact ⟨.pfloat m e, hx, rfl⟩
    have hco : l.map pyIntCoerce = l := by
      have hpt : ∀ x ∈ l, pyIntCoerce x = id x := by
        intro x hx
        obtain ⟨n, rfl⟩ := hpint x hx
        rfl
      rw [List.map_congr_left hpt, List.map_id]
    rw [convert_to_int_case l hf2, hco]
    set strs := l.map pyNumStr with hstrs
    have hints : ∀ x ∈ strs, ∃ n, x = intChars n := by
      intro x hx
      obtain ⟨y, hy, rfl⟩ := List.mem_map.mp hx
      obtain ⟨n, rfl⟩ := hpint y hy
      exact ⟨n, rfl⟩
    have hclean : ∀ c ∈ joinSemi strs, c ≠ '[' ∧ c ≠ ']' := by
      intro c hc
      rcases joinSemi_chars strs c hc with rfl | ⟨x, hx, hcx⟩
      · exact ⟨by decide, by decide⟩
      · obtain ⟨n, rfl⟩ := hints x hx
        have := intChars_clean n c hcx
        exact ⟨this.2.2.1, this.2.2.2⟩
    have hstrip : pyReplace ']' [] (pyReplace '[' [] (joinSemi strs)) = joinSemi strs := by
      rw [pyReplace_not_mem _ _ _ (fun hm => (hclean '[' hm).1 rfl)]
      rw [pyReplace_not_mem _ _ _ (fun hm => (hclean ']' hm).2 rfl)]
    have hnodot : '.' ∉ joinSemi strs := by
      intro hc
      rcases joinSemi_chars strs '.' hc with h | ⟨x, hx, hcx⟩
      · exact absurd h (by decide)
      · obtain ⟨n, rfl⟩ := hints x hx
        exact intChars_no_dot n hcx
    have hsplit : splitSep ';' (joinSemi strs) = strs := by
      apply joinSemi_split
      · rw [hstrs]
        simp [hne]
      · intro x hx
        obtain ⟨n, rfl⟩ := hints x hx
        exact intChars_no_semi n
    have hmapM : strs.mapM pyParseInt = some (l.map pintVal) := by
      rw [hstrs]
      apply mapM_map_option
      intro x hx
      obtain ⟨n, rfl⟩ := hpint x hx
      exact pyParseInt_intChars n
    refine ⟨(l.map pintVal).map .pint, ?_, ?_⟩
    · simp only [convert_from_list_of_numbers]
      rw [hstrip, if_neg hnodot, hsplit, hmapM]
    · rw [List.map_map]
      have hid : l.map (PyNum.pint ∘ pintVal) = l := by
        have hpt : ∀ x ∈ l, (PyNum.pint ∘ pintVal) x = id x := by
          intro x hx
          obtain ⟨n, rfl⟩ := hpint x hx
          rfl
        rw [List.map_congr_left hpt, List.map_id]
      rw [hid]
      exact List.forall₂_same.mpr (fun x _ => rfl)

/-! ## Claim C5 — serialize/deserialize round trip -/

/-- Claim C5 (counterexamples): the empty list is accepted by the
serializer (`convert_to_list_of_numbers [] = ""`) but deserialising raises
`ValueError` — `"".split(";") == [""]` and `int("")` fails; and the float
`1e-05` is rendered by `str()` in scientific notation, so its serialisation
`"1e-05"` contains no `.`, deserialisation takes the `int` branch, and
`int("1e-05")` raises `ValueError` — so neither the empty nor every
non-empty sequence round-trips. -/
theorem c5_counterexamples :
    convert_from_list_of_numbers (convert_to_list_of_numbers []) = .error () ∧
    convert_to_list_of_numbers [PyNum.pfloat 1 5] = ['1', 'e', '-', '0', '5'] ∧
    convert_from_list_of_numbers (convert_to_list_of_numbers [PyNum.pfloat 1 5]) =
      .error () :=
  ⟨rfl, by decide, by rfl⟩

/-- Claim C5 (amended: restricted to non-empty lists — forced by the `[]`
counterexample — whose elements all render in plain decimal after the
serializer's coercion, i.e. excluding the floats CPython prints in
scientific notation, whose serialisations need not survive the `.`-based
int/float branch choice of the deserializer): for every such list,
serialising with `convert_to_list_of_numbers` and deserialising with
`convert_from_list_of_numbers` succeeds and recovers the original numeric
sequence exactly (element-wise equal numeric values, e.g. `[1, 4]` →
`"1;4"` → `[1, 4]`, and float lists round-trip to equal-valued floats). -/
theorem c5_roundtrip_amended (l : List PyNum) (hne : l ≠ [])
    (hpl : ∀ x ∈ (if anyFloatLike l then l.map pyFloatCoerce
      else l.map pyIntCoerce), plainRendered x = true) :
    ∃ l2, convert_from_list_of_numbers (convert_to_list_of_numbers l) = .ok l2 ∧
      List.Forall₂ (fun a b => numVal a = numVal b) l l2 :=
  c5_roundtrip_core l hne hpl

/-- Witness for `c5_roundtrip_amended` at the spec's example `[1, 4]`:
the serialised form is `"1;4"` and the round trip recovers the sequence. -/
theorem c5_roundtrip_witness :
    convert_to_list_of_numbers [PyNum.pint 1, PyNum.pint 4] = ['1', ';', '4'] ∧
    (∃ l2, convert_from_list_of_numbers
        (convert_to_list_of_numbers [PyNum.pint 1, PyNum.pint 4]) = .ok l2 ∧
      List.Forall₂ (fun a b => numVal a = numVal b) [PyNum.pint 1, PyNum.pint 4] l2) :=
  ⟨rfl, c5_roundtrip_amended [PyNum.pint 1, PyNum.pint 4] (by decide) (by decide)⟩

/-! ## parse.py — valid_list_of_numbers (lines 136-147)

The number-list pattern `^\d+(\.\d+)?(;\d+(\.\d+)?)*$` describes
semicolon-separated numeric tokens; `\d` is modelled as the ASCII digits. -/

/-- One numeric token, `\d+(\.\d+)?`: digits, optionally a point and more
digits. -/
def isNumToken (s : PyStr) : Bool :=
  match splitSep '.' s with
  | [ip] => !ip.isEmpty && ip.all Char.isDigit
  | [ip, fp] => !ip.isEmpty && !fp.isEmpty && ip.all Char.isDigit && fp.all Char.isDigit
  | _ => false

/-- The language of the regex `^\d+(\.\d+)?(;\d+(\.\d+)?)*$`: splitting on
`;` yields numeric tokens only (tokens contain no `;`, so this split
characterises the concatenation structure; the empty string has the
single non-token chunk `""` and is excluded). -/
def matchesNumberListRegex (s : PyStr) : Bool :=
  (splitSep ';' s).all isNumToken

/-- CPython `re.match(r"^...$", s)` for this anchored pattern: `$` also
matches just before one trailing newline. -/
def pyReMatchNumberList (s : PyStr) : Bool :=
  matchesNumberListRegex s ||
    (s.getLast? = some '\n' && matchesNumberListRegex s.dropLast)

/-- `parse.valid_list_of_numbers` (parse.py lines 136-147): remove spaces,
`re.match` the pattern, then reject a leading or trailing `;`. -/
def valid_list_of_numbers (s : PyStr) : Bool :=
  let v := pyReplace ' ' [] s
  if !(pyReMatchNumberList v) then false
  else if v.head? = some ';' || v.getLast? = some ';' then false
  else true

theorem splitSep_ne_nil (sep : Char) (s : PyStr) : splitSep sep s ≠ [] := by
  cases s with
  | nil => simp [splitSep]
  | cons c cs =>
    rw [splitSep]
    cases h : splitSep sep cs with
    | nil => simp
    | cons t ts => by_cases hc : c = sep <;> simp [hc]

theorem matches_semi_head (rest : PyStr) :
    matchesNumberListRegex (';' :: rest) = false := by
  unfold matchesNumberListRegex
  rw [splitSep]
  cases h : splitSep ';' rest with
  | nil => exact absurd h (splitSep_ne_nil ';' rest)
  | cons t ts => simp [isNumToken, splitSep]

theorem splitSep_single_empty (sep : Char) (r : PyStr) (hne : r ≠ []) :
    splitSep sep r ≠ [[]] := by
  cases r with
  | nil => exact absurd rfl hne
  | cons c cs =>
    rw [splitSep]
    cases h : splitSep sep cs with
    | nil => exact absurd h (splitSep_ne_nil sep cs)
    | cons t ts => by_cases hc : c = sep <;> simp [hc]

theorem splitSep_getLast_sep (sep : Char) :
    ∀ s : PyStr, s.getLast? = some sep → (splitSep sep s).getLast? = some []
  | [], h => by simp at h
  | [a], h => by
    simp at h
    subst h
    simp [splitSep]
  | a :: b :: t2, h => by
    have htail : (b :: t2 : PyStr).getLast? = some sep := by
      simpa [List.getLast?_cons_cons] using h
    have ih2 := splitSep_getLast_sep sep (b :: t2) htail
    rw [splitSep]
    cases hsp : splitSep sep (b :: t2) with
    | nil => exact absurd hsp (splitSep_ne_nil sep (b :: t2))
    | cons u us =>
      rw [hsp] at ih2
      show ((if a = sep then [] :: u :: us else (a :: u) :: us) : List PyStr).getLast? = some []
      by_cases hc : a = sep
      · rw [if_pos hc, List.getLast?_cons_cons]
        exact ih2
      · rw [if_neg hc]
        cases us with
        | nil =>
          exfalso
          simp at ih2
          subst ih2
          exact absurd hsp (splitSep_single_empty sep (b :: t2) (by simp))
        | cons u2 us2 =>
          rw [List.getLast?_cons_cons] at ih2 ⊢
          exact ih2

theorem mem_of_getLast?_eq (l : List PyStr) (a : PyStr) (h : l.getLast? = some a) :
    a ∈ l := by
  match l with
  | [] => simp at h
  | [x] =>
    simp at h
    simp [h]
  | x :: y :: t =>
    rw [List.getLast?_cons_cons] at h
    exact List.mem_cons_of_mem x (mem_of_getLast?_eq (y :: t) a h)

theorem matches_no_semi_last (s : PyStr) (h : s.getLast? = some ';') :
    matchesNumberListRegex s = false := by
  have hmem : ([] : PyStr) ∈ splitSep ';' s :=
    mem_of_getLast?_eq _ _ (splitSep_getLast_sep ';' s h)
  have hnot : ¬ ∀ x ∈ splitSep ';' s, isNumToken x = true := by
    intro hall
    have := hall [] hmem
    simp [isNumToken, splitSep] at this
  unfold matchesNumberListRegex
  cases hall : (splitSep ';' s).all isNumToken
  · rfl
  · exact absurd (by simpa [List.all_eq_true] using hall) hnot

theorem matches_head_ne_semi (s : PyStr) (h : matchesNumberListRegex s = true) :
    s.head? ≠ some ';' := by
  intro hh
  match s with
  | [] => simp at hh
  | c :: cs =>
    simp at hh
    subst hh
    rw [matches_semi_head cs] at h
    exact absurd h (by simp)

/-! ## Claim C9 -/

/-- Claim C9 (counterexample): `valid_list_of_numbers " 1"` returns `True`
because the code deletes spaces before matching, yet `" 1"` does not match
`^\d+(\.\d+)?(;\d+(\.\d+)?)*$`, so the claimed iff fails. -/
theorem c9_counterexample_space :
    valid_list_of_numbers [' ', '1'] = true ∧
      matchesNumberListRegex [' ', '1'] = false :=
  ⟨rfl, rfl⟩

/-- A string accepted by the pattern cannot start or end with `;`, so the
code's explicit leading/trailing-`;` rejections are redundant. -/
theorem c9_guards (v : PyStr) (hm : pyReMatchNumberList v = true) :
    v.head? ≠ some ';' ∧ v.getLast? ≠ some ';' := by
  unfold pyReMatchNumberList at hm
  rw [Bool.or_eq_true] at hm
  rcases hm with hcore | hnl
  · refine ⟨matches_head_ne_semi v hcore, fun hlast => ?_⟩
    rw [matches_no_semi_last v hlast] at hcore
    exact Bool.false_ne_true hcore
  · rw [Bool.and_eq_true, decide_eq_true_iff] at hnl
    obtain ⟨hln, hdrop⟩ := hnl
    constructor
    · intro hh
      cases v with
      | nil => simp at hh
      | cons a t =>
        simp at hh
        subst hh
        cases t with
        | nil => simp at hln
        | cons b t2 =>
          rw [List.dropLast_cons₂] at hdrop
          rw [matches_semi_head] at hdrop
          exact Bool.false_ne_true hdrop
    · intro hlast
      rw [hlast] at hln
      simp at hln

/-- Claim C9 (amended): `valid_list_of_numbers s` is true iff the string
obtained from `s` by deleting all spaces matches
`^\d+(\.\d+)?(;\d+(\.\d+)?)*$` under CPython `re.match` semantics (where `$`
also accepts one trailing newline); the original claim's iff over `s` itself
fails on strings containing spaces. -/
theorem c9_valid_iff_stripped_match (s : PyStr) :
    valid_list_of_numbers s = pyReMatchNumberList (pyReplace ' ' [] s) := by
  unfold valid_list_of_numbers
  cases hm : pyReMatchNumberList (pyReplace ' ' [] s) with
  | false => simp [hm]
  | true =>
    obtain ⟨hhead, hlast⟩ := c9_guards _ hm
    simp [hm, hhead, hlast]

/-! ## parse.py — valid_key (lines 150-153) and RowElem validation (156-282)

Python exceptions relevant to the embedded code paths. -/

inductive PyExc where
  | valueError
  | typeError
  | attributeError
  | keyError
  | osError
  | unicodeDecodeError
  | unicodeEncodeError
  | expatError
  | parserInitError
  | parserParseError
  | parserValidationError
deriving DecidableEq, Repr

/-- A Python value as seen by the row validators: a string, a datetime
instance (opaque payload), a number, or anything else. -/
inductive PyVal where
  | pstr : PyStr → PyVal
  | pdatetime : Int → PyVal
  | pnum : PyNum → PyVal
  | pother : PyVal
deriving DecidableEq, Repr

/-- `str.isdigit` for one character: CPython accepts every character with
Unicode `Numeric_Type` `Digit` or `Decimal` — more than the ASCII decimal
digits.  Beyond `0`-`9` the model carries the Latin-1 superscripts `¹²³`,
which `isdigit` accepts although they are not decimal digits (and `int()`
rejects them), enough to exhibit the non-decimal acceptances of the full
predicate. -/
def pyIsDigit (c : Char) : Bool :=
  c.isDigit || c = '¹' || c = '²' || c = '³'

/-- `parse.valid_key` (parse.py lines 150-153):
`(type(val) is str) and (len(val) == 44) and val.isdigit()`. -/
def valid_key : PyVal → Bool
  | .pstr s => s.length == 44 && s.all pyIsDigit
  | _ => false

/-- `float(val)`: numbers coerce, strings parse (plain decimal grammar,
`ValueError` on failure), any other type raises `TypeError`. -/
def pyFloatOf : PyVal → Except PyExc PyNum
  | .pnum n => .ok (pyFloatCoerce n)
  | .pstr s =>
    match pyParseFloat s with
    | some p => .ok p
    | none => .error .valueError
  | _ => .error .typeError

/-- One `_validate_and_assign` step for a `KeyType` annotation: raises
`ValueError` unless `valid_key` accepts the value. -/
def checkKey (v : PyVal) : Except PyExc PyVal :=
  if valid_key v then .ok v else .error .valueError

/-- Step for a `datetime` annotation: `type(val) != datetime` raises
`ValueError`; otherwise the `strftime` rendering is appended (the payload is
kept opaque here). -/
def checkDatetime (v : PyVal) : Except PyExc PyVal :=
  match v with
  | .pdatetime t => .ok (.pdatetime t)
  | _ => .error .valueError

/-- Step for a `ListOfNumbersType` annotation: `valid_list_of_numbers(val)`
(which calls `val.replace`, so a non-string raises `AttributeError`);
`ValueError` when the validator rejects. -/
def checkListOfNumbers (v : PyVal) : Except PyExc PyVal :=
  match v with
  | .pstr s => if valid_list_of_numbers s then .ok (.pstr s) else .error .valueError
  | _ => .error .attributeError

/-- Step for a `FloatCoercibleType` annotation: `valid_float`, then
`values.append(float(val))`.  `valid_float` catches only `ValueError`, so a
`TypeError` from `float()` of a wrong-typed value escapes. -/
def checkFloatCoercible (v : PyVal) : Except PyExc PyVal :=
  match pyFloatOf v with
  | .ok p => .ok (.pnum p)
  | .error e => .error e

/-- Step for a plain `str` annotation: no validation, the raw value is
appended unchanged. -/
def checkPlain (v : PyVal) : Except PyExc PyVal :=
  .ok v

/-- The constructor arguments of `FactRowElem` (parse.py lines 222-231), in
declaration order. -/
structure FactRowFields where
  ChaveNFe : PyVal
  DataHoraEmi : PyVal
  PagamentoTipo : PyVal
  PagamentoValor : PyVal
  TotalProdutos : PyVal
  TotalDesconto : PyVal
  TotalTributos : PyVal
deriving DecidableEq, Repr

/-- `FactRowElem(...)`: `RowElem._validate_and_assign` walks the annotated
fields in declaration order (`ChaveNFe` first) and raises at the first
failure. -/
def mkFactRowElem (f : FactRowFields) : Except PyExc (List PyVal) := do
  let v1 ← checkKey f.ChaveNFe
  let v2 ← checkDatetime f.DataHoraEmi
  let v3 ← checkListOfNumbers f.PagamentoTipo
  let v4 ← checkListOfNumbers f.PagamentoValor
  let v5 ← checkFloatCoercible f.TotalProdutos
  let v6 ← checkFloatCoercible f.TotalDesconto
  let v7 ← checkFloatCoercible f.TotalTributos
  return [v1, v2, v3, v4, v5, v6, v7]

/-- The constructor arguments of `TransacRowElem` (parse.py lines 250-276),
in declaration order. -/
structure TransacRowFields where
  (ChaveNFe CodProduto CodBarras CodNCM CodCEST CodCFOP : PyVal)
  (QuantComercial QuantTributavel : PyVal)
  (UnidComercial UnidTributavel DescricaoProd : PyVal)
  (ValorUnitario BaseCalcPIS ValorPIS BaseCalcCOFINS ValorCOFINS : PyVal)
  (BaseCalcRetidoICMS ValorRetidoICMS ValorSubstitutoICMS : PyVal)
  (BaseCalcEfetivoICMS ValorEfetivoICMS : PyVal)
deriving DecidableEq, Repr

/-- `TransacRowElem(...)`: `ChaveNFe` is the only `KeyType` field and is
validated first; the `Cod*`/`Unid*`/`DescricaoProd` fields carry plain `str`
annotations (no validation), the quantity/price/tax fields are
`FloatCoercibleType`. -/
def mkTransacRowElem (f : TransacRowFields) : Except PyExc (List PyVal) := do
  let v1 ← checkKey f.ChaveNFe
  let v2 ← checkPlain f.CodProduto
  let v3 ← checkPlain f.CodBarras
  let v4 ← checkPlain f.CodNCM
  let v5 ← checkPlain f.CodCEST
  let v6 ← checkPlain f.CodCFOP
  let v7 ← checkFloatCoercible f.QuantComercial
  let v8 ← checkFloatCoercible f.QuantTributavel
  let v9 ← checkPlain f.UnidComercial
  let v10 ← checkPlain f.UnidTributavel
  let v11 ← checkPlain f.DescricaoProd
  let v12 ← checkFloatCoercible f.ValorUnitario
  let v13 ← checkFloatCoercible f.BaseCalcPIS
  let v14 ← checkFloatCoercible f.ValorPIS
  let v15 ← checkFloatCoercible f.BaseCalcCOFINS
  let v16 ← checkFloatCoercible f.ValorCOFINS
  let v17 ← checkFloatCoercible f.BaseCalcRetidoICMS
  let v18 ← checkFloatCoercible f.ValorRetidoICMS
  let v19 ← checkFloatCoercible f.ValorSubstitutoICMS
  let v20 ← checkFloatCoercible f.BaseCalcEfetivoICMS
  let v21 ← checkFloatCoercible f.ValorEfetivoICMS
  return [v1, v2, v3, v4, v5, v6, v7, v8, v9, v10, v11, v12, v13, v14, v15,
    v16, v17, v18, v19, v20, v21]

/-! ## Claim C4 -/

/-- Claim C4 (counterexample): CPython `str.isdigit` also accepts
non-decimal digit characters such as `'²'` (U+00B2), so a 44-character
superscript string passes `valid_key` although it consists of no decimal
digit at all, and `FactRowElem` construction succeeds with it when the
other fields are valid — refuting the claim's "fails whenever the key is
not 44 decimal digits" direction. -/
theorem c4_counterexample_superscript :
    Char.isDigit '²' = false ∧
    valid_key (.pstr (List.replicate 44 '²')) = true ∧
    mkFactRowElem ⟨.pstr (List.replicate 44 '²'), .pdatetime 0, .pstr ['1'],
      .pstr ['1'], .pnum (.pint 1), .pnum (.pint 1), .pnum (.pint 1)⟩ =
      .ok [.pstr (List.replicate 44 '²'), .pdatetime 0, .pstr ['1'], .pstr ['1'],
        .pnum (.pfloat 1 0), .pnum (.pfloat 1 0), .pnum (.pfloat 1 0)] :=
  ⟨rfl, by decide, by rfl⟩

/-- Claim C4 (amended: the key check tests Python `str.isdigit`, which
accepts non-decimal digit characters, not "decimal digits"): `valid_key`
accepts exactly the strings of length 44 all of whose characters satisfy
`str.isdigit`, and constructing a `FactRowElem` or `TransacRowElem` raises
`ValueError` whenever the fiscal-key field fails that check (the key is the
first validated field, so the failure is independent of the other
fields). -/
theorem c4_fiscal_key_validation_amended :
    (∀ v : PyVal, valid_key v = true ↔
      ∃ s, v = .pstr s ∧ s.length = 44 ∧ ∀ c ∈ s, pyIsDigit c = true) ∧
    (∀ f : FactRowFields, valid_key f.ChaveNFe = false →
      mkFactRowElem f = .error .valueError) ∧
    (∀ f : TransacRowFields, valid_key f.ChaveNFe = false →
      mkTransacRowElem f = .error .valueError) := by
  refine ⟨?_, ?_, ?_⟩
  · intro v
    match v with
    | .pstr s =>
      simp only [valid_key, Bool.and_eq_true, beq_iff_eq, List.all_eq_true]
      constructor
      · rintro ⟨h1, h2⟩
        exact ⟨s, rfl, h1, h2⟩
      · rintro ⟨s2, hs2, h1, h2⟩
        cases hs2
        exact ⟨h1, h2⟩
    | .pdatetime t => simp [valid_key]
    | .pnum n => simp [valid_key]
    | .pother => simp [valid_key]
  · intro f h
    have hk : checkKey f.ChaveNFe = .error .valueError := by
      unfold checkKey
      rw [if_neg (by simp [h])]
    unfold mkFactRowElem
    rw [hk]
    rfl
  · intro f h
    have hk : checkKey f.ChaveNFe = .error .valueError := by
      unfold checkKey
      rw [if_neg (by simp [h])]
    unfold mkTransacRowElem
    rw [hk]
    rfl

/-- Witness for `c4_fiscal_key_validation_amended`: a 44-digit key passes
the check, and a 1-character key makes `FactRowElem` construction fail. -/
theorem c4_fiscal_key_amended_witness :
    valid_key (.pstr (List.replicate 44 '7')) = true ∧
    mkFactRowElem ⟨.pstr ['1'], .pother, .pother, .pother, .pother, .pother,
      .pother⟩ = .error .valueError :=
  ⟨(c4_fiscal_key_validation_amended.1 _).mpr
      ⟨List.replicate 44 '7', rfl, by simp, by decide⟩,
   c4_fiscal_key_validation_amended.2.1 _ (by decide)⟩

/-! ## cache.py — CacheHandler (lines 144-237) -/

/-- A `ParserInput`: `{"path": str, "buy": bool}`.  Two inputs are equal iff
path and buy both are. -/
structure ParserInput where
  path : String
  buy : Bool
deriving DecidableEq, Repr

/-- State of one cache partition as a `CacheHandler` sees it: the in-memory
list `self.data` and the on-disk pickle file (`none` = file absent/deleted). -/
structure CacheState where
  mem : List ParserInput
  disk : Option (List ParserInput)
deriving DecidableEq, Repr

inductive CacheErr where
  | keyAlreadyProcessed
  | keyNotFound
  | valueError
deriving DecidableEq, Repr

namespace CacheHandler

/-- `CacheHandler._load` (cache.py 152-159): `touch(exist_ok=True)` then
unpickle; an absent (touched-empty) file yields `[]` via the `EOFError`
handler. -/
def load (st : CacheState) : List ParserInput :=
  st.disk.getD []

/-- `CacheHandler._heal` (161-179): compare the on-disk list against memory;
equal sizes do nothing, a shorter disk is rewritten from memory, a longer
disk is reloaded into memory.  (`_load`'s touch leaves the file existing
with the compared contents in every branch.) -/
def heal (st : CacheState) : CacheState :=
  let ondisk := load st
  if ondisk.length = st.mem.length then { mem := st.mem, disk := some ondisk }
  else if ondisk.length < st.mem.length then { mem := st.mem, disk := some st.mem }
  else { mem := ondisk, disk := some ondisk }

/-- `CacheHandler.add` (217-225): `_check_item` (inputs here are well-typed
by construction), raise `KeyAlreadyProcessedError` if the item is already in
the freshly loaded on-disk list, `_heal`, dump `self.data + [item]`, and
reload memory from the file just written. -/
def add (st : CacheState) (item : ParserInput) : Except CacheErr CacheState :=
  if item ∈ load st then .error .keyAlreadyProcessed
  else
    let st1 := heal st
    let newList := st1.mem ++ [item]
    .ok { mem := newList, disk := some newList }

/-- `CacheHandler.rm` (227-237): raise `KeyNotFoundError` if the item is not
in memory; `_heal`; then `self.data.index(item)` — which raises `ValueError`
if healing replaced memory by a disk list without the item — pop, dump and
reload. -/
def rm (st : CacheState) (item : ParserInput) : Except CacheErr CacheState :=
  if item ∉ st.mem then .error .keyNotFound
  else
    let st1 := heal st
    if item ∈ st1.mem then
      let newList := st1.mem.erase item
      .ok { mem := newList, disk := some newList }
    else .error .valueError

theorem heal_synced (l : List ParserInput) : heal ⟨l, some l⟩ = ⟨l, some l⟩ := by
  simp [heal, load]

theorem heal_none_mem (mem : List ParserInput) : (heal ⟨mem, none⟩).mem = mem := by
  simp only [heal, load, Option.getD_none, List.length_nil]
  by_cases hm : mem = []
  · subst hm
    simp
  · have hlen : mem.length ≠ 0 := by
      simpa [List.length_eq_zero] using hm
    rw [if_neg (by omega), if_pos (by omega)]

theorem add_deleted_disk (mem : List ParserInput) (x : ParserInput) :
    add ⟨mem, none⟩ x = .ok ⟨mem ++ [x], some (mem ++ [x])⟩ := by
  simp only [add, load, Option.getD_none]
  rw [if_neg (by simp)]
  rw [show (heal ⟨mem, none⟩).mem = mem from heal_none_mem mem]

theorem add_synced (l : List ParserInput) (x : ParserInput) (h : x ∉ l) :
    add ⟨l, some l⟩ x = .ok ⟨l ++ [x], some (l ++ [x])⟩ := by
  simp only [add, load, Option.getD_some]
  rw [if_neg (by simp [h]), heal_synced]

theorem rm_synced (l : List ParserInput) (y : ParserInput) (h : y ∈ l) :
    rm ⟨l, some l⟩ y = .ok ⟨l.erase y, some (l.erase y)⟩ := by
  simp only [rm]
  rw [if_neg (by simp [h]), heal_synced]
  simp only [h, if_pos]

end CacheHandler

/-! ## Claim C2 -/

/-- Claim C2: every cache mutation reconciles memory and disk first — a
shorter on-disk list is rewritten from memory, a longer one is reloaded into
memory; consequently an `add` issued after the on-disk file was deleted
restores every in-memory entry plus the new one to disk (no exception, no
lost entries), and a subsequent `rm` of any present element operates
correctly on the healed, in-sync state. -/
theorem c2_cache_self_heal :
    (∀ st : CacheState, (CacheHandler.load st).length < st.mem.length →
      CacheHandler.heal st = { mem := st.mem, disk := some st.mem }) ∧
    (∀ st : CacheState, st.mem.length < (CacheHandler.load st).length →
      CacheHandler.heal st =
        { mem := CacheHandler.load st, disk := some (CacheHandler.load st) }) ∧
    (∀ (mem : List ParserInput) (x : ParserInput),
      CacheHandler.add ⟨mem, none⟩ x = .ok ⟨mem ++ [x], some (mem ++ [x])⟩) ∧
    (∀ (mem : List ParserInput) (x y : ParserInput), y ∈ mem ++ [x] →
      CacheHandler.rm ⟨mem ++ [x], some (mem ++ [x])⟩ y =
        .ok ⟨(mem ++ [x]).erase y, some ((mem ++ [x]).erase y)⟩) := by
  refine ⟨?_, ?_, ?_, ?_⟩
  · intro st h
    simp only [CacheHandler.heal]
    rw [if_neg (by omega), if_pos h]
  · intro st h
    simp only [CacheHandler.heal]
    rw [if_neg (by omega), if_neg (by omega)]
  · intro mem x
    exact CacheHandler.add_deleted_disk mem x
  · intro mem x y hy
    exact CacheHandler.rm_synced (mem ++ [x]) y hy

/-- Witness for `c2_cache_self_heal` on a two-entry cache whose disk file was
deleted: heal restores disk from memory, a stale memory is reloaded from a
longer disk, `add` heals and appends, and `rm` then removes correctly. -/
theorem c2_cache_self_heal_witness :
    CacheHandler.heal ⟨[⟨"a.xml", true⟩], none⟩ =
      ⟨[⟨"a.xml", true⟩], some [⟨"a.xml", true⟩]⟩ ∧
    CacheHandler.heal ⟨[], some [⟨"a.xml", true⟩]⟩ =
      ⟨[⟨"a.xml", true⟩], some [⟨"a.xml", true⟩]⟩ ∧
    CacheHandler.add ⟨[⟨"a.xml", true⟩], none⟩ ⟨"b.xml", false⟩ =
      .ok ⟨[⟨"a.xml", true⟩, ⟨"b.xml", false⟩],
        some [⟨"a.xml", true⟩, ⟨"b.xml", false⟩]⟩ ∧
    CacheHandler.rm ⟨[⟨"a.xml", true⟩, ⟨"b.xml", false⟩],
        some [⟨"a.xml", true⟩, ⟨"b.xml", false⟩]⟩ ⟨"a.xml", true⟩ =
      .ok ⟨[⟨"b.xml", false⟩], some [⟨"b.xml", false⟩]⟩ :=
  ⟨c2_cache_self_heal.1 ⟨[⟨"a.xml", true⟩], none⟩ (by decide),
   c2_cache_self_heal.2.1 ⟨[], some [⟨"a.xml", true⟩]⟩ (by decide),
   c2_cache_self_heal.2.2.1 [⟨"a.xml", true⟩] ⟨"b.xml", false⟩,
   c2_cache_self_heal.2.2.2 [⟨"a.xml", true⟩] ⟨"b.xml", false⟩ ⟨"a.xml", true⟩
     (by decide)⟩

/-! ## cache.py / db.py / api.py — the ingestion orchestrator

The parser itself (BeautifulSoup over an on-disk XML file) is the
environment here: over an unchanged directory its behaviour on a given
input is a fixed outcome record carrying exactly the observables that
`ParserManipulator` and `db` branch on.  Cache partitions are modelled by
their on-disk contents keyed by cache file name — every `CacheHandler` is
constructed freshly from disk (`self.data = self._load()`) and every
mutation rewrites the file, so memory and disk agree at the orchestrator
level; the bridge lemmas `CacheHandler.add_synced`/`rm_synced` relate the
guarded calls to the real handler operations. -/

/-- A database row, identified by the natural key which
`fact_row_exists`/`transac_row_exists` compare (the table name derived from
`parser.name` together with the compared column values). -/
abbrev Row := String

/-- Observables of one constructed-and-parsed parser: whether `__init__`
recorded errors, whether `parse()` recorded errors, `str(parser.name)`
(used as the failure-partition file name), the rows in `parser.data`, and
whether the error list holds a non-`ParserInitError` entry when
`_add_failed_parser_to_cache` inspects it. -/
structure ParseOutcome where
  initErroed : Bool
  parseErroed : Bool
  name : String
  rows : List Row
  hasNonInitErr : Bool
deriving DecidableEq, Repr

/-- `parser.erroed()` after `_test_return_parser` ran. -/
def ParseOutcome.erroed (o : ParseOutcome) : Bool :=
  o.initErroed || o.parseErroed

/-- The deterministic parser behaviour over an unchanged directory. -/
structure ParserEnv where
  outcome : ParserInput → ParseOutcome

/-- `cache._get_success_cachename` (cache.py 30-34). -/
def successCacheName (full_parse : Bool) : String :=
  if full_parse then "__both_table_success__" else "__fact_table_success__"

/-- The init-failure partition name (cache.py 80, 125, 318). -/
def couldNotParseName : String := "__could_not_parse_xml__"

/-- Well-formedness of the environment: a parser whose `__init__` erroed
never runs `parse()`, so `parser.data` stays empty and `parser.err` holds a
`ParserInitError`; and `str(parser.name)` — always `"COMPRA …"`,
`"VENDA …"`, `"COULD_NOT_GET_NAME"` or `"None"` — never collides with the
three reserved partition names. -/
def WFEnv (env : ParserEnv) : Prop :=
  ∀ i : ParserInput,
    ((env.outcome i).initErroed = true → (env.outcome i).rows = []) ∧
    (env.outcome i).name ≠ successCacheName true ∧
    (env.outcome i).name ≠ successCacheName false ∧
    (env.outcome i).name ≠ couldNotParseName

/-- Orchestrator state: cache partitions by file name, database rows, and
the `ParserManipulator` counters. -/
structure OState where
  caches : String → List ParserInput
  db : List Row
  nParsed : Nat
  nFailed : Nat
  nSkipped : Nat
  nRecovered : Nat

/-- Pointwise cache update. -/
def setCache (c : String → List ParserInput) (k : String) (v : List ParserInput) :
    String → List ParserInput :=
  fun n => if n = k then v else c n

theorem setCache_self (c : String → List ParserInput) (k : String) :
    setCache c k (c k) = c := by
  funext n
  unfold setCache
  split <;> simp_all

theorem setCache_eq (c : String → List ParserInput) (k : String) (v : List ParserInput) :
    setCache c k v k = v := by
  simp [setCache]

theorem setCache_ne (c : String → List ParserInput) (k : String) (v : List ParserInput)
    (n : String) (h : n ≠ k) : setCache c k v n = c n := by
  simp [setCache, h]

/-- The guarded add the orchestrator performs
(`if item not in cache.data: cache.add(item)`). -/
def cacheAddG (l : List ParserInput) (x : ParserInput) : List ParserInput :=
  if x ∈ l then l else l ++ [x]

/-- The guarded remove (`if item in cache.data: cache.rm(item)`). -/
def cacheRmG (l : List ParserInput) (x : ParserInput) : List ParserInput :=
  if x ∈ l then l.erase x else l

/-- The guarded add never raises: on a duplicate the call is skipped, and
otherwise the real `CacheHandler.add` succeeds with the appended list. -/
theorem cacheAddG_spec (l : List ParserInput) (x : ParserInput) :
    (x ∈ l → cacheAddG l x = l) ∧
    (x ∉ l → CacheHandler.add ⟨l, some l⟩ x = .ok ⟨cacheAddG l x, some (cacheAddG l x)⟩) := by
  constructor
  · intro h
    simp [cacheAddG, h]
  · intro h
    rw [show cacheAddG l x = l ++ [x] from by simp [cacheAddG, h]]
    exact CacheHandler.add_synced l x h

/-- The guarded remove never raises: absent items are skipped, and otherwise
the real `CacheHandler.rm` succeeds with the erased list. -/
theorem cacheRmG_spec (l : List ParserInput) (x : ParserInput) :
    (x ∉ l → cacheRmG l x = l) ∧
    (x ∈ l → CacheHandler.rm ⟨l, some l⟩ x = .ok ⟨cacheRmG l x, some (cacheRmG l x)⟩) := by
  constructor
  · intro h
    simp [cacheRmG, h]
  · intro h
    rw [show cacheRmG l x = l.erase x from by simp [cacheRmG, h]]
    exact CacheHandler.rm_synced l x h

/-- `ParserManipulator._test_return_parser` (cache.py 269-282): construct
the parser; on init failure `_save_failed_parser_init` runs — but its guard
`ParserInitError not in parser.err` compares the class object against
exception instances and never holds, so it never writes — and the parser is
returned without parsing; otherwise `parse()` runs and, on errors, the
input is added to the `parser.name` partition unless already present.
(`CacheHandler(name, full_parse)` prefixes only the display name: the cache
file is `f"{cachename}.cache"` for both modes, so partitions are keyed by
the bare name.) -/
def testReturnParser (env : ParserEnv) (st : OState) (i : ParserInput) : OState :=
  let o := env.outcome i
  if o.initErroed then st
  else if o.parseErroed then
    { st with caches := setCache st.caches o.name (cacheAddG (st.caches o.name) i) }
  else st

/-- `ParserManipulator._remove_successful_parser_from_cache` (284-296):
count a recovery, return unless the parser succeeded with data, then drop
the input from the init-failure and per-name partitions if present. -/
def removeSuccessfulParser (env : ParserEnv) (st : OState) (i : ParserInput) : OState :=
  let o := env.outcome i
  let st1 := { st with nRecovered := st.nRecovered + 1 }
  if o.erroed = true ∨ o.rows = [] then st1
  else
    let st2 := { st1 with
      caches := setCache st1.caches couldNotParseName
        (cacheRmG (st1.caches couldNotParseName) i) }
    { st2 with caches := setCache st2.caches o.name (cacheRmG (st2.caches o.name) i) }

/-- `ParserManipulator._add_failed_parser_to_cache` (298-312): count a
failure, return if the parser has no errors or holds data, then add the
input to the init-failure partition when a `ParserInitError` is present and
to the per-name partition when a non-init error is present (each unless
already a member). -/
def addFailedParser (env : ParserEnv) (st : OState) (i : ParserInput) : OState :=
  let o := env.outcome i
  let st1 := { st with nFailed := st.nFailed + 1 }
  if o.erroed = false ∨ o.rows ≠ [] then st1
  else
    let ic := st1.caches couldNotParseName
    let st2 := if i ∉ ic ∧ o.initErroed = true then
        { st1 with caches := setCache st1.caches couldNotParseName (ic ++ [i]) }
      else st1
    let pc := st2.caches o.name
    if i ∉ pc ∧ o.hasNonInitErr = true then
      { st2 with caches := setCache st2.caches o.name (pc ++ [i]) }
    else st2

/-- `ParserManipulator._handle_cache_registry` (332-339). -/
def handleCacheRegistry (env : ParserEnv) (st : OState) (i : ParserInput) : OState :=
  let o := env.outcome i
  if i ∈ st.caches couldNotParseName ∨ i ∈ st.caches o.name then
    removeSuccessfulParser env st i
  else addFailedParser env st i

/-- One loop iteration of `db.insert_rows`: insert the row unless an exact
natural-key match already exists (`fact_row_exists`/`transac_row_exists`). -/
def insertStep (acc : List Row × Nat) (r : Row) : List Row × Nat :=
  if r ∈ acc.1 then acc else (acc.1 ++ [r], acc.2 + 1)

/-- `db.insert_rows` (db.py 370-402): fold `insertStep` over the parser's
rows.  The second component counts the rows actually inserted (the
instrumentation the idempotence claim is about). -/
def insert_rows (rows : List Row) (db : List Row) : List Row × Nat :=
  rows.foldl insertStep (db, 0)

/-- `db.all_rows_in_db` (db.py 132-159): `True` when the parser holds no
data, otherwise every row must already exist. -/
def all_rows_in_db (rows : List Row) (db : List Row) : Bool :=
  if rows.length = 0 then true
  else rows.all (fun r => decide (r ∈ db))

/-- `cache._save_successfull_fileparse` (cache.py 89-107): no-op unless
`parser._parsed()`; add the input to the mode's success partition unless
already present. -/
def saveSuccessfulFileparse (env : ParserEnv) (full : Bool) (st : OState) (i : ParserInput) :
    OState :=
  let o := env.outcome i
  if o.erroed = false ∧ o.rows = [] then st
  else
    let sc := st.caches (successCacheName full)
    if i ∈ sc then st
    else { st with caches := setCache st.caches (successCacheName full) (sc ++ [i]) }

/-- `ParserManipulator._handle_parser_success` (322-330): insert the rows,
record the success, clear failure partitions. -/
def handleParserSuccess (env : ParserEnv) (full : Bool) (st : OState) (i : ParserInput) :
    OState × Nat :=
  let o := env.outcome i
  let ins := insert_rows o.rows st.db
  let st1 := { st with db := ins.1 }
  let st2 := saveSuccessfulFileparse env full st1 i
  (removeSuccessfulParser env st2 i, ins.2)

/-- The first half of `ParserManipulator.add_parser` (248-257): build and
parse the parser, count it, and classify failures into cache partitions. -/
def addParserStage1 (env : ParserEnv) (st : OState) (i : ParserInput) : OState :=
  let st1 := testReturnParser env st i
  let st2 := { st1 with nParsed := st1.nParsed + 1 }
  if (env.outcome i).erroed then handleCacheRegistry env st2 i else st2

/-- `ParserManipulator.add_parser` (248-261): after the failure
classification, either skip (all rows already stored — in particular when
there are no rows) or insert. -/
def addParser (env : ParserEnv) (full : Bool) (st : OState) (i : ParserInput) :
    OState × Nat :=
  let st3 := addParserStage1 env st i
  if all_rows_in_db (env.outcome i).rows st3.db then
    ({ st3 with nSkipped := st3.nSkipped + 1 }, 0)
  else handleParserSuccess env full st3 i

/-- `cache.get_not_processed_inputs` (cache.py 60-86): build one input per
path and drop those in the success partition (plus the could-not-parse
partition when `ignore_fails`); the ignore list is snapshot eagerly when the
generator is created, before any mutation. -/
def getNotProcessedInputs (caches : String → List ParserInput) (filepaths : List String)
    (buy ignoreFails full : Bool) : List ParserInput :=
  let ignoreData := caches (successCacheName full) ++
    (if ignoreFails then caches couldNotParseName else [])
  (filepaths.map (fun p => ⟨p, buy⟩)).filter (fun i => decide (i ∉ ignoreData))

/-- One loop iteration of `parse_dir`: run `add_parser` and accumulate the
insert count. -/
def parseDirStep (env : ParserEnv) (full : Bool) (acc : OState × Nat) (i : ParserInput) :
    OState × Nat :=
  ((addParser env full acc.1 i).1, acc.2 + (addParser env full acc.1 i).2)

/-- The parsing loop in the `try` body of `api.parse_dir` (api.py 110-122):
filter the directory through the caches and fold `add_parser` over the
remaining inputs; the second component counts database inserts performed
during the run.  `parse_dir` itself never reaches this loop — see
`parse_dir` and `c1_parse_dir_crashes` below. -/
def parseDirLoop (env : ParserEnv) (full : Bool) (st : OState) (files : List String)
    (buy ignoreFails : Bool) : OState × Nat :=
  (getNotProcessedInputs st.caches files buy ignoreFails full).foldl
    (parseDirStep env full) (st, 0)

/-- Calling `cache.ParserManipulator` with a set of keyword arguments:
`ParserManipulator.__init__` (cache.py 241) accepts only `full_parse`, so
any other keyword raises `TypeError` before the object exists. -/
def parserManipulatorInit (kwargs : List String) : Except PyExc Unit :=
  if kwargs.all (fun k => k = "full_parse") then .ok () else .error .typeError

/-- `api.parse_dir` (api.py 91-131): list the directory, snapshot the cache
partitions into the input filter (`get_not_processed_inputs` reads the
caches eagerly and returns a lazy generator), then construct the
manipulator with `cache.ParserManipulator(full_parse=full_parse, con=con)`
(api.py 117) and fold `add_parser` over the remaining inputs.  The
surrounding `try` guards only `KeyboardInterrupt`, so the `TypeError` the
constructor call raises — `__init__` takes no `con` — propagates out of
`parse_dir` before any file is read, parsed or inserted. -/
def parse_dir (env : ParserEnv) (full : Bool) (st : OState) (files : List String)
    (buy ignoreFails : Bool) : Except PyExc (OState × Nat) :=
  let inputs := getNotProcessedInputs st.caches files buy ignoreFails full
  match parserManipulatorInit ["full_parse", "con"] with
  | .error e => .error e
  | .ok _ => .ok (inputs.foldl (parseDirStep env full) (st, 0))

/-! ### Field-preservation facts for the orchestrator steps -/

theorem testReturnParser_db (env : ParserEnv) (st : OState) (i : ParserInput) :
    (testReturnParser env st i).db = st.db := by
  simp only [testReturnParser]
  split
  · rfl
  · split <;> rfl

theorem testReturnParser_nSkipped (env : ParserEnv) (st : OState) (i : ParserInput) :
    (testReturnParser env st i).nSkipped = st.nSkipped := by
  simp only [testReturnParser]
  split
  · rfl
  · split <;> rfl

theorem removeSuccessfulParser_db (env : ParserEnv) (st : OState) (i : ParserInput) :
    (removeSuccessfulParser env st i).db = st.db := by
  simp only [removeSuccessfulParser]
  split <;> rfl

theorem removeSuccessfulParser_nSkipped (env : ParserEnv) (st : OState) (i : ParserInput) :
    (removeSuccessfulParser env st i).nSkipped = st.nSkipped := by
  simp only [removeSuccessfulParser]
  split <;> rfl

theorem addFailedParser_db (env : ParserEnv) (st : OState) (i : ParserInput) :
    (addFailedParser env st i).db = st.db := by
  simp only [addFailedParser]
  split
  · rfl
  · split <;> split <;> rfl

theorem addFailedParser_nSkipped (env : ParserEnv) (st : OState) (i : ParserInput) :
    (addFailedParser env st i).nSkipped = st.nSkipped := by
  simp only [addFailedParser]
  split
  · rfl
  · split <;> split <;> rfl

theorem saveSuccessfulFileparse_db (env : ParserEnv) (full : Bool) (st : OState)
    (i : ParserInput) : (saveSuccessfulFileparse env full st i).db = st.db := by
  simp only [saveSuccessfulFileparse]
  split
  · rfl
  · split <;> rfl

theorem handleCacheRegistry_db (env : ParserEnv) (st : OState) (i : ParserInput) :
    (handleCacheRegistry env st i).db = st.db := by
  simp only [handleCacheRegistry]
  split
  · exact removeSuccessfulParser_db env st i
  · exact addFailedParser_db env st i

theorem handleCacheRegistry_nSkipped (env : ParserEnv) (st : OState) (i : ParserInput) :
    (handleCacheRegistry env st i).nSkipped = st.nSkipped := by
  simp only [handleCacheRegistry]
  split
  · exact removeSuccessfulParser_nSkipped env st i
  · exact addFailedParser_nSkipped env st i

theorem addParserStage1_db (env : ParserEnv) (st : OState) (i : ParserInput) :
    (addParserStage1 env st i).db = st.db := by
  simp only [addParserStage1]
  split
  · rw [handleCacheRegistry_db]
    exact testReturnParser_db env st i
  · exact testReturnParser_db env st i

theorem addParserStage1_nSkipped (env : ParserEnv) (st : OState) (i : ParserInput) :
    (addParserStage1 env st i).nSkipped = st.nSkipped := by
  simp only [addParserStage1]
  split
  · rw [handleCacheRegistry_nSkipped]
    exact testReturnParser_nSkipped env st i
  · exact testReturnParser_nSkipped env st i

/-! ## Claim C8 -/

/-- Claim C8: when extraction fails for an input that is already present in
its per-document-class failure partition, recording the failure again is a
no-op — `_test_return_parser`'s guarded add leaves the state untouched,
`_handle_cache_registry` routes to the recovery branch which returns
immediately for an erroed parser, and no exception is raised because the
membership guard skips the `CacheHandler.add` call that would throw
`KeyAlreadyProcessedError` on the duplicate. -/
theorem c8_duplicate_failure_noop (env : ParserEnv) (st : OState) (i : ParserInput)
    (hinit : (env.outcome i).initErroed = false)
    (hparse : (env.outcome i).parseErroed = true)
    (hmem : i ∈ st.caches (env.outcome i).name) :
    testReturnParser env st i = st ∧
    (∀ n, (handleCacheRegistry env st i).caches n = st.caches n) ∧
    CacheHandler.add
      ⟨st.caches (env.outcome i).name, some (st.caches (env.outcome i).name)⟩ i =
      .error .keyAlreadyProcessed := by
  refine ⟨?_, ?_, ?_⟩
  · simp only [testReturnParser, hinit, hparse, Bool.false_eq_true, if_false, if_true]
    rw [(cacheAddG_spec _ _).1 hmem, setCache_self]
  · intro n
    simp only [handleCacheRegistry]
    rw [if_pos (Or.inr hmem)]
    simp only [removeSuccessfulParser]
    rw [if_pos (Or.inl (by simp [ParseOutcome.erroed, hparse]))]
  · simp only [CacheHandler.add, CacheHandler.load, Option.getD_some]
    rw [if_pos hmem]

/-- A concrete environment for the C8 witness: extraction of `a.xml` fails
(no init error, parse errors, no rows). -/
def c8Env : ParserEnv :=
  ⟨fun _ => ⟨false, true, "VENDA LOJA", [], true⟩⟩

/-- A concrete state for the C8 witness: `a.xml` is already in the
`"VENDA LOJA"` failure partition. -/
def c8St : OState :=
  ⟨fun n => if n = "VENDA LOJA" then [⟨"a.xml", true⟩] else [], [], 0, 0, 0, 0⟩

/-- Witness for `c8_duplicate_failure_noop` at a concrete duplicate
failure. -/
theorem c8_duplicate_failure_witness :
    testReturnParser c8Env c8St ⟨"a.xml", true⟩ = c8St ∧
    (∀ n, (handleCacheRegistry c8Env c8St ⟨"a.xml", true⟩).caches n =
      c8St.caches n) ∧
    CacheHandler.add
      ⟨c8St.caches (c8Env.outcome ⟨"a.xml", true⟩).name,
        some (c8St.caches (c8Env.outcome ⟨"a.xml", true⟩).name)⟩ ⟨"a.xml", true⟩ =
      .error .keyAlreadyProcessed :=
  c8_duplicate_failure_noop c8Env c8St ⟨"a.xml", true⟩ rfl rfl (by decide)

/-! ## Claim C10 -/

/-- Claim C10: `all_rows_in_db` returns `True` for a parser with an empty
data list, so `add_parser` counts such an input as skipped, performs zero
database inserts and leaves the database unchanged. -/
theorem c10_empty_data_skipped (env : ParserEnv) (full : Bool) (st : OState)
    (i : ParserInput) (hrows : (env.outcome i).rows = []) :
    all_rows_in_db [] st.db = true ∧
    (addParser env full st i).2 = 0 ∧
    (addParser env full st i).1.db = st.db ∧
    (addParser env full st i).1.nSkipped = st.nSkipped + 1 := by
  have hred : addParser env full st i =
      ({ addParserStage1 env st i with
          nSkipped := (addParserStage1 env st i).nSkipped + 1 }, 0) := by
    simp only [addParser, hrows]
    rfl
  have hdb : (addParserStage1 env st i).db = st.db := addParserStage1_db env st i
  have hsk : (addParserStage1 env st i).nSkipped = st.nSkipped :=
    addParserStage1_nSkipped env st i
  refine ⟨rfl, ?_, ?_, ?_⟩
  · rw [hred]
  · rw [hred]
    exact hdb
  · rw [hred]
    show (addParserStage1 env st i).nSkipped + 1 = st.nSkipped + 1
    rw [hsk]

/-- A concrete environment for the C10 witness: parsing `a.xml` fails at
init and yields no rows. -/
def c10Env : ParserEnv :=
  ⟨fun _ => ⟨true, false, "None", [], true⟩⟩

/-- The all-empty orchestrator state. -/
def emptyOState : OState :=
  ⟨fun _ => [], [], 0, 0, 0, 0⟩

/-- Witness for `c10_empty_data_skipped` at a concrete empty-data input. -/
theorem c10_empty_data_witness :
    all_rows_in_db [] emptyOState.db = true ∧
    (addParser c10Env true emptyOState ⟨"a.xml", true⟩).2 = 0 ∧
    (addParser c10Env true emptyOState ⟨"a.xml", true⟩).1.db = emptyOState.db ∧
    (addParser c10Env true emptyOState ⟨"a.xml", true⟩).1.nSkipped =
      emptyOState.nSkipped + 1 :=
  c10_empty_data_skipped c10Env true emptyOState ⟨"a.xml", true⟩ rfl

/-! ### Infrastructure for the idempotence claim (C1) -/

theorem insertStep_foldl_mem (rows : List Row) (acc : List Row × Nat) :
    (∀ r ∈ acc.1, r ∈ (rows.foldl insertStep acc).1) ∧
    (∀ r ∈ rows, r ∈ (rows.foldl insertStep acc).1) := by
  induction rows generalizing acc with
  | nil => exact ⟨fun r h => h, by simp⟩
  | cons a t ih =>
    rw [List.foldl_cons]
    have hmem : ∀ r ∈ acc.1, r ∈ (insertStep acc a).1 := by
      intro r h
      unfold insertStep
      split
      · exact h
      · exact List.mem_append_left _ h
    have hself : a ∈ (insertStep acc a).1 := by
      unfold insertStep
      split
      · assumption
      · exact List.mem_append_right _ (by simp)
    obtain ⟨h1, h2⟩ := ih (insertStep acc a)
    refine ⟨fun r h => h1 r (hmem r h), ?_⟩
    intro r h
    rcases List.mem_cons.mp h with rfl | h
    · exact h1 r hself
    · exact h2 r h

theorem insert_rows_mem_db (rows db : List Row) :
    ∀ r ∈ db, r ∈ (insert_rows rows db).1 :=
  (insertStep_foldl_mem rows (db, 0)).1

theorem insert_rows_mem_rows (rows db : List Row) :
    ∀ r ∈ rows, r ∈ (insert_rows rows db).1 :=
  (insertStep_foldl_mem rows (db, 0)).2

theorem all_rows_in_db_iff (rows db : List Row) :
    all_rows_in_db rows db = true ↔ ∀ r ∈ rows, r ∈ db := by
  unfold all_rows_in_db
  split
  · rename_i h
    have : rows = [] := List.length_eq_zero.mp h
    subst this
    simp
  · simp [List.all_eq_true]

/-- `cacheAddG` preserves existing members and contains the added item. -/
theorem cacheAddG_mem (l : List ParserInput) (x y : ParserInput) (h : y ∈ l) :
    y ∈ cacheAddG l x := by
  unfold cacheAddG
  split
  · exact h
  · exact List.mem_append_left _ h

theorem cacheAddG_self (l : List ParserInput) (x : ParserInput) : x ∈ cacheAddG l x := by
  unfold cacheAddG
  split
  · assumption
  · exact List.mem_append_right _ (by simp)

/-- `cacheRmG` removes only the given item. -/
theorem cacheRmG_mem (l : List ParserInput) (x y : ParserInput) (h : y ∈ l) (hne : y ≠ x) :
    y ∈ cacheRmG l x := by
  unfold cacheRmG
  split
  · exact List.mem_erase_of_ne hne |>.mpr h
  · exact h

/-- Any cache member other than the processed input survives
`testReturnParser`. -/
theorem testReturnParser_caches_mem (env : ParserEnv) (st : OState) (i : ParserInput)
    (n : String) (y : ParserInput) (h : y ∈ st.caches n) :
    y ∈ (testReturnParser env st i).caches n := by
  simp only [testReturnParser]
  split
  · exact h
  · split
    · show y ∈ setCache st.caches (env.outcome i).name _ n
      by_cases hn : n = (env.outcome i).name
      · subst hn
        rw [setCache_eq]
        exact cacheAddG_mem _ i y h
      · rw [setCache_ne _ _ _ _ hn]
        exact h
    · exact h

theorem removeSuccessfulParser_caches_mem (env : ParserEnv) (st : OState) (i : ParserInput)
    (n : String) (y : ParserInput) (h : y ∈ st.caches n) (hne : y ≠ i) :
    y ∈ (removeSuccessfulParser env st i).caches n := by
  simp only [removeSuccessfulParser]
  split
  · exact h
  · have h2 : y ∈ setCache st.caches couldNotParseName
        (cacheRmG (st.caches couldNotParseName) i) n := by
      by_cases hn1 : n = couldNotParseName
      · subst hn1
        rw [setCache_eq]
        exact cacheRmG_mem _ _ _ h hne
      · rw [setCache_ne _ _ _ _ hn1]
        exact h
    by_cases hn2 : n = (env.outcome i).name
    · subst hn2
      show y ∈ setCache _ (env.outcome i).name _ (env.outcome i).name
      rw [setCache_eq]
      exact cacheRmG_mem _ _ _ h2 hne
    · show y ∈ setCache _ (env.outcome i).name _ n
      rw [setCache_ne _ _ _ _ hn2]
      exact h2

theorem addFailedParser_caches_mem (env : ParserEnv) (st : OState) (i : ParserInput)
    (n : String) (y : ParserInput) (h : y ∈ st.caches n) :
    y ∈ (addFailedParser env st i).caches n := by
  simp only [addFailedParser]
  split
  · exact h
  · have hstep1 : ∀ c : String → List ParserInput, y ∈ c n →
        y ∈ setCache c couldNotParseName (c couldNotParseName ++ [i]) n := by
      intro c hc
      by_cases hn : n = couldNotParseName
      · subst hn
        rw [setCache_eq]
        exact List.mem_append_left _ hc
      · rw [setCache_ne _ _ _ _ hn]
        exact hc
    split
    · -- added to the init partition, maybe also to the name partition
      split
      · show y ∈ setCache _ (env.outcome i).name _ n
        by_cases hn : n = (env.outcome i).name
        · subst hn
          rw [setCache_eq]
          exact List.mem_append_left _ (hstep1 st.caches h)
        · rw [setCache_ne _ _ _ _ hn]
          exact hstep1 st.caches h
      · exact hstep1 st.caches h
    · split
      · show y ∈ setCache _ (env.outcome i).name _ n
        by_cases hn : n = (env.outcome i).name
        · subst hn
          rw [setCache_eq]
          exact List.mem_append_left _ h
        · rw [setCache_ne _ _ _ _ hn]
          exact h
      · exact h

theorem handleCacheRegistry_caches_mem (env : ParserEnv) (st : OState) (i : ParserInput)
    (n : String) (y : ParserInput) (h : y ∈ st.caches n) (hne : y ≠ i) :
    y ∈ (handleCacheRegistry env st i).caches n := by
  simp only [handleCacheRegistry]
  split
  · exact removeSuccessfulParser_caches_mem env st i n y h hne
  · exact addFailedParser_caches_mem env st i n y h

theorem saveSuccessfulFileparse_caches_mem (env : ParserEnv) (full : Bool) (st : OState)
    (i : ParserInput) (n : String) (y : ParserInput) (h : y ∈ st.caches n) :
    y ∈ (saveSuccessfulFileparse env full st i).caches n := by
  simp only [saveSuccessfulFileparse]
  split
  · exact h
  · split
    · exact h
    · show y ∈ setCache _ (successCacheName full) _ n
      by_cases hn : n = successCacheName full
      · subst hn
        rw [setCache_eq]
        exact List.mem_append_left _ h
      · rw [setCache_ne _ _ _ _ hn]
        exact h

theorem handleParserSuccess_caches_mem (env : ParserEnv) (full : Bool) (st : OState)
    (i : ParserInput) (n : String) (y : ParserInput) (h : y ∈ st.caches n) (hne : y ≠ i) :
    y ∈ (handleParserSuccess env full st i).1.caches n := by
  simp only [handleParserSuccess]
  apply removeSuccessfulParser_caches_mem env _ i n y _ hne
  apply saveSuccessfulFileparse_caches_mem
  exact h

theorem handleParserSuccess_db_mem (env : ParserEnv) (full : Bool) (st : OState)
    (i : ParserInput) (r : Row) (h : r ∈ st.db) :
    r ∈ (handleParserSuccess env full st i).1.db := by
  simp only [handleParserSuccess]
  rw [removeSuccessfulParser_db, saveSuccessfulFileparse_db]
  exact insert_rows_mem_db _ _ r h

theorem addParserStage1_caches_mem (env : ParserEnv) (st : OState) (i : ParserInput)
    (n : String) (y : ParserInput) (h : y ∈ st.caches n) (hne : y ≠ i) :
    y ∈ (addParserStage1 env st i).caches n := by
  simp only [addParserStage1]
  have h1 := testReturnParser_caches_mem env st i n y h
  split
  · exact handleCacheRegistry_caches_mem env _ i n y h1 hne
  · exact h1

/-- Any cache member other than the processed input survives a full
`add_parser` step. -/
theorem addParser_caches_mem (env : ParserEnv) (full : Bool) (st : OState) (i : ParserInput)
    (n : String) (y : ParserInput) (h : y ∈ st.caches n) (hne : y ≠ i) :
    y ∈ (addParser env full st i).1.caches n := by
  simp only [addParser]
  have h1 := addParserStage1_caches_mem env st i n y h hne
  split
  · exact h1
  · exact handleParserSuccess_caches_mem env full _ i n y h1 hne

/-- The database only grows during a step. -/
theorem addParser_db_mem (env : ParserEnv) (full : Bool) (st : OState) (i : ParserInput)
    (r : Row) (h : r ∈ st.db) : r ∈ (addParser env full st i).1.db := by
  simp only [addParser]
  have h1 : r ∈ (addParserStage1 env st i).db := by
    rw [addParserStage1_db]
    exact h
  split
  · exact h1
  · exact handleParserSuccess_db_mem env full _ i r h1

/-! ### Partitions other than the ones a step writes are untouched -/

theorem testReturnParser_caches_ne (env : ParserEnv) (st : OState) (i : ParserInput)
    (n : String) (hn : n ≠ (env.outcome i).name) :
    (testReturnParser env st i).caches n = st.caches n := by
  simp only [testReturnParser]
  split
  · rfl
  · split
    · show setCache _ (env.outcome i).name _ n = _
      rw [setCache_ne _ _ _ _ hn]
    · rfl

theorem removeSuccessfulParser_caches_ne (env : ParserEnv) (st : OState) (i : ParserInput)
    (n : String) (hn1 : n ≠ couldNotParseName) (hn2 : n ≠ (env.outcome i).name) :
    (removeSuccessfulParser env st i).caches n = st.caches n := by
  simp only [removeSuccessfulParser]
  split
  · rfl
  · show setCache _ (env.outcome i).name _ n = _
    rw [setCache_ne _ _ _ _ hn2, setCache_ne _ _ _ _ hn1]

theorem addFailedParser_caches_ne (env : ParserEnv) (st : OState) (i : ParserInput)
    (n : String) (hn1 : n ≠ couldNotParseName) (hn2 : n ≠ (env.outcome i).name) :
    (addFailedParser env st i).caches n = st.caches n := by
  simp only [addFailedParser]
  split
  · rfl
  · split <;> split <;> simp [setCache, hn1, hn2]

theorem handleCacheRegistry_caches_ne (env : ParserEnv) (st : OState) (i : ParserInput)
    (n : String) (hn1 : n ≠ couldNotParseName) (hn2 : n ≠ (env.outcome i).name) :
    (handleCacheRegistry env st i).caches n = st.caches n := by
  simp only [handleCacheRegistry]
  split
  · exact removeSuccessfulParser_caches_ne env st i n hn1 hn2
  · exact addFailedParser_caches_ne env st i n hn1 hn2

theorem addParserStage1_caches_ne (env : ParserEnv) (st : OState) (i : ParserInput)
    (n : String) (hn1 : n ≠ couldNotParseName) (hn2 : n ≠ (env.outcome i).name) :
    (addParserStage1 env st i).caches n = st.caches n := by
  simp only [addParserStage1]
  split
  · rw [handleCacheRegistry_caches_ne env _ i n hn1 hn2]
    exact testReturnParser_caches_ne env st i n hn2
  · exact testReturnParser_caches_ne env st i n hn2

/-- The success partition is append-only across a full step: under a
well-formed environment no step ever erases from it. -/
theorem addParser_success_mem (env : ParserEnv) (full : Bool) (st : OState) (i : ParserInput)
    (hW : WFEnv env) (x : ParserInput)
    (h : x ∈ st.caches (successCacheName full)) :
    x ∈ (addParser env full st i).1.caches (successCacheName full) := by
  have hname : successCacheName full ≠ (env.outcome i).name := by
    cases full
    · exact fun he => (hW i).2.2.1 he.symm
    · exact fun he => (hW i).2.1 he.symm
  have hcnp : successCacheName full ≠ couldNotParseName := by
    cases full <;> decide
  simp only [addParser]
  have h1 : x ∈ (addParserStage1 env st i).caches (successCacheName full) := by
    rw [addParserStage1_caches_ne env st i _ hcnp hname]
    exact h
  split
  · exact h1
  · simp only [handleParserSuccess]
    rw [removeSuccessfulParser_caches_ne env _ i _ hcnp hname]
    apply saveSuccessfulFileparse_caches_mem
    exact h1

/-! ### Settled inputs: reprocessing is a no-op -/

/-- An input is settled for given cache/database contents when reprocessing
it can change neither the cache partitions nor the database: an init-failed
input sits in the could-not-parse or its name partition, an
extraction-failed input sits in its name partition with all its rows (none,
usually) stored, and a clean input has all its rows stored. -/
def Settled (env : ParserEnv) (i : ParserInput) (caches : String → List ParserInput)
    (db : List Row) : Prop :=
  let o := env.outcome i
  if o.initErroed then
    i ∈ caches couldNotParseName ∨ i ∈ caches o.name
  else if o.parseErroed then
    i ∈ caches o.name ∧ ∀ r ∈ o.rows, r ∈ db
  else
    ∀ r ∈ o.rows, r ∈ db

theorem settled_rows_sub (env : ParserEnv) (i : ParserInput)
    (caches : String → List ParserInput) (db : List Row) (hW : WFEnv env)
    (hs : Settled env i caches db) : ∀ r ∈ (env.outcome i).rows, r ∈ db := by
  simp only [Settled] at hs
  split at hs
  · rename_i hinit
    rw [(hW i).1 hinit]
    simp
  · split at hs
    · exact hs.2
    · exact hs

theorem removeSuccessfulParser_erroed (env : ParserEnv) (st : OState) (i : ParserInput)
    (herr : (env.outcome i).erroed = true) :
    (removeSuccessfulParser env st i).caches = st.caches ∧
    (removeSuccessfulParser env st i).db = st.db := by
  simp only [removeSuccessfulParser]
  rw [if_pos (Or.inl herr)]
  exact ⟨rfl, rfl⟩

theorem testReturnParser_settled_eq (env : ParserEnv) (st : OState) (i : ParserInput)
    (h : (env.outcome i).initErroed = false → (env.outcome i).parseErroed = true →
      i ∈ st.caches (env.outcome i).name) :
    testReturnParser env st i = st := by
  simp only [testReturnParser]
  split
  · rfl
  · split
    · rename_i h1 h2
      rw [(cacheAddG_spec _ _).1 (h (Bool.not_eq_true _ ▸ h1) h2), setCache_self]
    · rfl

theorem addParserStage1_settled (env : ParserEnv) (st : OState) (i : ParserInput)
    (hs : Settled env i st.caches st.db) :
    (addParserStage1 env st i).caches = st.caches ∧
    (addParserStage1 env st i).db = st.db := by
  simp only [Settled] at hs
  by_cases hinit : (env.outcome i).initErroed = true
  · -- init failure: the input already sits in a failure partition
    rw [if_pos hinit] at hs
    have herr : (env.outcome i).erroed = true := by
      simp [ParseOutcome.erroed, hinit]
    have ht : testReturnParser env st i = st :=
      testReturnParser_settled_eq env st i (fun hf _ => absurd hinit (by simp [hf]))
    simp only [addParserStage1, ht]
    rw [if_pos herr]
    simp only [handleCacheRegistry]
    rw [if_pos hs]
    exact removeSuccessfulParser_erroed env _ i herr
  · rw [if_neg hinit] at hs
    have hinit2 : (env.outcome i).initErroed = false := by
      cases h : (env.outcome i).initErroed
      · rfl
      · exact absurd h hinit
    by_cases hparse : (env.outcome i).parseErroed = true
    · rw [if_pos hparse] at hs
      have herr : (env.outcome i).erroed = true := by
        simp [ParseOutcome.erroed, hparse]
      have ht : testReturnParser env st i = st :=
        testReturnParser_settled_eq env st i (fun _ _ => hs.1)
      simp only [addParserStage1, ht]
      rw [if_pos herr]
      simp only [handleCacheRegistry]
      rw [if_pos (Or.inr hs.1)]
      exact removeSuccessfulParser_erroed env _ i herr
    · have hparse2 : (env.outcome i).parseErroed = false := by
        cases h : (env.outcome i).parseErroed
        · rfl
        · exact absurd h hparse
      have herr : (env.outcome i).erroed = false := by
        simp [ParseOutcome.erroed, hinit2, hparse2]
      have ht : testReturnParser env st i = st :=
        testReturnParser_settled_eq env st i (fun _ hp => absurd hp hparse)
      simp only [addParserStage1, ht]
      rw [if_neg (by simp [herr])]
      exact ⟨rfl, rfl⟩

/-- Processing a settled input changes no cache partition, changes no
database row, and performs zero inserts. -/
theorem settled_step (env : ParserEnv) (full : Bool) (st : OState) (i : ParserInput)
    (hW : WFEnv env) (hs : Settled env i st.caches st.db) :
    (addParser env full st i).1.caches = st.caches ∧
    (addParser env full st i).1.db = st.db ∧
    (addParser env full st i).2 = 0 := by
  obtain ⟨hc, hd⟩ := addParserStage1_settled env st i hs
  have hsub : ∀ r ∈ (env.outcome i).rows, r ∈ (addParserStage1 env st i).db := by
    rw [hd]
    exact settled_rows_sub env i st.caches st.db hW hs
  have hall : all_rows_in_db (env.outcome i).rows (addParserStage1 env st i).db = true :=
    (all_rows_in_db_iff _ _).mpr hsub
  simp only [addParser]
  rw [if_pos hall]
  exact ⟨hc, hd, rfl⟩

/-! ### A processed input ends its step settled -/

theorem saveSuccessfulFileparse_caches_ne (env : ParserEnv) (full : Bool) (st : OState)
    (i : ParserInput) (n : String) (hn : n ≠ successCacheName full) :
    (saveSuccessfulFileparse env full st i).caches n = st.caches n := by
  simp only [saveSuccessfulFileparse]
  split
  · rfl
  · split
    · rfl
    · show setCache _ (successCacheName full) _ n = _
      rw [setCache_ne _ _ _ _ hn]

theorem handleParserSuccess_db (env : ParserEnv) (full : Bool) (st : OState)
    (i : ParserInput) :
    (handleParserSuccess env full st i).1.db =
      (insert_rows (env.outcome i).rows st.db).1 := by
  simp only [handleParserSuccess]
  rw [removeSuccessfulParser_db, saveSuccessfulFileparse_db]

theorem handleParserSuccess_caches_erroed (env : ParserEnv) (full : Bool) (st : OState)
    (i : ParserInput) (herr : (env.outcome i).erroed = true) (n : String)
    (hn : n ≠ successCacheName full) :
    (handleParserSuccess env full st i).1.caches n = st.caches n := by
  simp only [handleParserSuccess]
  rw [(removeSuccessfulParser_erroed env _ i herr).1]
  rw [saveSuccessfulFileparse_caches_ne env full _ i n hn]

theorem name_ne_success (env : ParserEnv) (i : ParserInput) (full : Bool)
    (hW : WFEnv env) : (env.outcome i).name ≠ successCacheName full := by
  cases full
  · exact (hW i).2.2.1
  · exact (hW i).2.1

theorem cnp_ne_success (full : Bool) : couldNotParseName ≠ successCacheName full := by
  cases full <;> decide

theorem testReturnParser_parse_self (env : ParserEnv) (st : OState) (i : ParserInput)
    (hinit : (env.outcome i).initErroed = false)
    (hparse : (env.outcome i).parseErroed = true) :
    i ∈ (testReturnParser env st i).caches (env.outcome i).name := by
  simp only [testReturnParser]
  rw [if_neg (by simp [hinit]), if_pos hparse]
  show i ∈ setCache _ (env.outcome i).name _ (env.outcome i).name
  rw [setCache_eq]
  exact cacheAddG_self _ i

theorem addFailedParser_cnp_self (env : ParserEnv) (st : OState) (i : ParserInput)
    (herr : (env.outcome i).erroed = true) (hrows : (env.outcome i).rows = [])
    (hinit : (env.outcome i).initErroed = true)
    (hnc : i ∉ st.caches couldNotParseName)
    (hname : (env.outcome i).name ≠ couldNotParseName) :
    i ∈ (addFailedParser env st i).caches couldNotParseName := by
  simp only [addFailedParser]
  rw [if_neg (by simp [herr, hrows])]
  split
  · split
    · show i ∈ setCache
        (setCache st.caches couldNotParseName (st.caches couldNotParseName ++ [i]))
        (env.outcome i).name
        (setCache st.caches couldNotParseName (st.caches couldNotParseName ++ [i])
          (env.outcome i).name ++ [i])
        couldNotParseName
      rw [setCache_ne _ _ _ _ (fun he => hname he.symm), setCache_eq]
      exact List.mem_append_right _ (by simp)
    · show i ∈ setCache st.caches couldNotParseName
        (st.caches couldNotParseName ++ [i]) couldNotParseName
      rw [setCache_eq]
      exact List.mem_append_right _ (by simp)
  · rename_i hA
    exact absurd ⟨hnc, hinit⟩ hA

theorem addParserStage1_init_mem (env : ParserEnv) (st : OState) (i : ParserInput)
    (hW : WFEnv env) (hinit : (env.outcome i).initErroed = true) :
    i ∈ (addParserStage1 env st i).caches couldNotParseName ∨
      i ∈ (addParserStage1 env st i).caches (env.outcome i).name := by
  have herr : (env.outcome i).erroed = true := by
    simp [ParseOutcome.erroed, hinit]
  have ht : testReturnParser env st i = st :=
    testReturnParser_settled_eq env st i (fun hf _ => absurd hinit (by simp [hf]))
  simp only [addParserStage1, ht]
  rw [if_pos herr]
  simp only [handleCacheRegistry]
  split
  · rename_i hc
    obtain ⟨hcc, _⟩ := removeSuccessfulParser_erroed env _ i herr
    rw [hcc]
    exact hc
  · rename_i hc
    push_neg at hc
    left
    exact addFailedParser_cnp_self env _ i herr ((hW i).1 hinit) hinit hc.1 (hW i).2.2.2

theorem addParserStage1_parse_mem (env : ParserEnv) (st : OState) (i : ParserInput)
    (hinit : (env.outcome i).initErroed = false)
    (hparse : (env.outcome i).parseErroed = true) :
    i ∈ (addParserStage1 env st i).caches (env.outcome i).name := by
  have herr : (env.outcome i).erroed = true := by
    simp [ParseOutcome.erroed, hparse]
  have hm := testReturnParser_parse_self env st i hinit hparse
  simp only [addParserStage1]
  rw [if_pos herr]
  simp only [handleCacheRegistry]
  split
  · obtain ⟨hcc, _⟩ := removeSuccessfulParser_erroed env _ i herr
    rw [hcc]
    exact hm
  · rename_i hc
    push_neg at hc
    exact absurd hm hc.2

/-- After its own step, an input is settled. -/
theorem step_establishes (env : ParserEnv) (full : Bool) (st : OState) (i : ParserInput)
    (hW : WFEnv env) :
    Settled env i (addParser env full st i).1.caches (addParser env full st i).1.db := by
  simp only [Settled]
  by_cases hinit : (env.outcome i).initErroed = true
  · rw [if_pos hinit]
    have herr : (env.outcome i).erroed = true := by
      simp [ParseOutcome.erroed, hinit]
    have hm := addParserStage1_init_mem env st i hW hinit
    simp only [addParser]
    split
    · exact hm
    · rcases hm with h | h
      · left
        rw [handleParserSuccess_caches_erroed env full _ i herr _ (cnp_ne_success full)]
        exact h
      · right
        rw [handleParserSuccess_caches_erroed env full _ i herr _
          (name_ne_success env i full hW)]
        exact h
  · have hinit2 : (env.outcome i).initErroed = false := by
      cases h : (env.outcome i).initErroed
      · rfl
      · exact absurd h hinit
    rw [if_neg hinit]
    by_cases hparse : (env.outcome i).parseErroed = true
    · rw [if_pos hparse]
      have herr : (env.outcome i).erroed = true := by
        simp [ParseOutcome.erroed, hparse]
      have hm := addParserStage1_parse_mem env st i hinit2 hparse
      simp only [addParser]
      split
      · rename_i hall
        exact ⟨hm, (all_rows_in_db_iff _ _).mp hall⟩
      · refine ⟨?_, ?_⟩
        · rw [handleParserSuccess_caches_erroed env full _ i herr _
            (name_ne_success env i full hW)]
          exact hm
        · rw [handleParserSuccess_db]
          exact insert_rows_mem_rows _ _
    · rw [if_neg hparse]
      simp only [addParser]
      split
      · rename_i hall
        exact (all_rows_in_db_iff _ _).mp hall
      · rw [handleParserSuccess_db]
        exact insert_rows_mem_rows _ _

/-- Settledness of one input is preserved by any step (of the same or
another input). -/
theorem settled_preserved (env : ParserEnv) (full : Bool) (st : OState)
    (j i : ParserInput) (hW : WFEnv env) (hs : Settled env i st.caches st.db) :
    Settled env i (addParser env full st j).1.caches (addParser env full st j).1.db := by
  by_cases hij : i = j
  · subst hij
    obtain ⟨hc, hd, _⟩ := settled_step env full st i hW hs
    rw [hc, hd]
    exact hs
  · simp only [Settled] at hs ⊢
    by_cases hinit : (env.outcome i).initErroed = true
    · rw [if_pos hinit] at hs ⊢
      rcases hs with h | h
      · exact Or.inl (addParser_caches_mem env full st j _ i h hij)
      · exact Or.inr (addParser_caches_mem env full st j _ i h hij)
    · rw [if_neg hinit] at hs ⊢
      by_cases hparse : (env.outcome i).parseErroed = true
      · rw [if_pos hparse] at hs ⊢
        exact ⟨addParser_caches_mem env full st j _ i hs.1 hij,
          fun r hr => addParser_db_mem env full st j r (hs.2 r hr)⟩
      · rw [if_neg hparse] at hs ⊢
        exact fun r hr => addParser_db_mem env full st j r (hs r hr)

/-! ### Fold-level lemmas over the parse_dir loop -/

theorem fold_preserves_settled (env : ParserEnv) (full : Bool) (hW : WFEnv env) :
    ∀ (inputs : List ParserInput) (acc : OState × Nat) (i : ParserInput),
    Settled env i acc.1.caches acc.1.db →
    Settled env i ((inputs.foldl (parseDirStep env full) acc).1).caches
      ((inputs.foldl (parseDirStep env full) acc).1).db := by
  intro inputs
  induction inputs with
  | nil => intro acc i hs; exact hs
  | cons j t ih =>
    intro acc i hs
    rw [List.foldl_cons]
    exact ih _ i (settled_preserved env full acc.1 j i hW hs)

theorem fold_establishes (env : ParserEnv) (full : Bool) (hW : WFEnv env) :
    ∀ (inputs : List ParserInput) (acc : OState × Nat),
    ∀ i ∈ inputs,
    Settled env i ((inputs.foldl (parseDirStep env full) acc).1).caches
      ((inputs.foldl (parseDirStep env full) acc).1).db := by
  intro inputs
  induction inputs with
  | nil => intro acc i hi; exact absurd hi (List.not_mem_nil i)
  | cons j t ih =>
    intro acc i hi
    rw [List.foldl_cons]
    rcases List.mem_cons.mp hi with rfl | hit
    · exact fold_preserves_settled env full hW t (parseDirStep env full acc i) i
        (step_establishes env full acc.1 i hW)
    · exact ih (parseDirStep env full acc j) i hit

theorem fold_success_mem (env : ParserEnv) (full : Bool) (hW : WFEnv env) :
    ∀ (inputs : List ParserInput) (acc : OState × Nat) (x : ParserInput),
    x ∈ acc.1.caches (successCacheName full) →
    x ∈ ((inputs.foldl (parseDirStep env full) acc).1).caches (successCacheName full) := by
  intro inputs
  induction inputs with
  | nil => intro acc x h; exact h
  | cons j t ih =>
    intro acc x h
    rw [List.foldl_cons]
    exact ih _ x (addParser_success_mem env full acc.1 j hW x h)

theorem fold_caches_mem (env : ParserEnv) (full : Bool) :
    ∀ (inputs : List ParserInput) (acc : OState × Nat) (n : String) (x : ParserInput),
    x ∈ acc.1.caches n → (∀ j ∈ inputs, x ≠ j) →
    x ∈ ((inputs.foldl (parseDirStep env full) acc).1).caches n := by
  intro inputs
  induction inputs with
  | nil => intro acc n x h _; exact h
  | cons j t ih =>
    intro acc n x h hne
    rw [List.foldl_cons]
    refine ih _ n x ?_ (fun k hk => hne k (List.mem_cons_of_mem j hk))
    exact addParser_caches_mem env full acc.1 j n x h (hne j (List.mem_cons_self j t))

theorem fold_settled_noop (env : ParserEnv) (full : Bool) (hW : WFEnv env) :
    ∀ (inputs : List ParserInput) (acc : OState × Nat),
    (∀ i ∈ inputs, Settled env i acc.1.caches acc.1.db) →
    ((inputs.foldl (parseDirStep env full) acc).1.caches = acc.1.caches ∧
     (inputs.foldl (parseDirStep env full) acc).1.db = acc.1.db ∧
     (inputs.foldl (parseDirStep env full) acc).2 = acc.2) := by
  intro inputs
  induction inputs with
  | nil => intro acc _; exact ⟨rfl, rfl, rfl⟩
  | cons j t ih =>
    intro acc hall
    rw [List.foldl_cons]
    obtain ⟨hc, hd, hk⟩ := settled_step env full acc.1 j hW (hall j (List.mem_cons_self j t))
    have hall2 : ∀ i ∈ t,
        Settled env i (parseDirStep env full acc j).1.caches
          (parseDirStep env full acc j).1.db := by
      intro i hi
      show Settled env i (addParser env full acc.1 j).1.caches (addParser env full acc.1 j).1.db
      rw [hc, hd]
      exact hall i (List.mem_cons_of_mem j hi)
    obtain ⟨h1, h2, h3⟩ := ih (parseDirStep env full acc j) hall2
    refine ⟨?_, ?_, ?_⟩
    · rw [h1]; exact hc
    · rw [h2]; exact hd
    · rw [h3]
      show acc.2 + (addParser env full acc.1 j).2 = acc.2
      rw [hk, Nat.add_zero]

/-- The counterfactual behind the spec's idempotence wording: had
`parse_dir` reached its loop, a second run over an unchanged directory with
the same perspective and mode would perform zero database inserts, leave
every cache partition and the database identical to the state after the
first run, and never re-read a success-partition member.  The program never
executes this loop — see `c1_parse_dir_crashes`. -/
theorem parseDirLoop_idempotent (env : ParserEnv) (full buy ign : Bool)
    (files : List String) (st0 : OState) (hW : WFEnv env)
    (r1 : OState × Nat) (hr1 : parseDirLoop env full st0 files buy ign = r1) :
    (parseDirLoop env full r1.1 files buy ign).2 = 0 ∧
    (parseDirLoop env full r1.1 files buy ign).1.caches = r1.1.caches ∧
    (parseDirLoop env full r1.1 files buy ign).1.db = r1.1.db ∧
    ∀ i ∈ getNotProcessedInputs r1.1.caches files buy ign full,
      i ∉ r1.1.caches (successCacheName full) := by
  subst hr1
  have hsettled : ∀ i ∈ getNotProcessedInputs
      (parseDirLoop env full st0 files buy ign).1.caches files buy ign full,
      Settled env i (parseDirLoop env full st0 files buy ign).1.caches
        (parseDirLoop env full st0 files buy ign).1.db := by
    intro i hi
    simp only [getNotProcessedInputs, List.mem_filter, decide_eq_true_eq] at hi
    obtain ⟨hmap, hpred⟩ := hi
    have hnsucc : i ∉ (parseDirLoop env full st0 files buy ign).1.caches
        (successCacheName full) :=
      fun hm => hpred (List.mem_append_left _ hm)
    by_cases h1 : i ∈ getNotProcessedInputs st0.caches files buy ign full
    · exact fold_establishes env full hW _ (st0, 0) i h1
    · -- `i` was filtered out of the first run: it was already cached
      have h1' := h1
      simp only [getNotProcessedInputs, List.mem_filter, decide_eq_true_eq] at h1'
      push_neg at h1'
      have hid := h1' hmap
      rcases List.mem_append.mp hid with hsucc | hcnp
      · exact absurd (fold_success_mem env full hW _ (st0, 0) i hsucc) hnsucc
      · have hig : ign = true := by
          by_contra hig
          rw [Bool.not_eq_true] at hig
          rw [hig] at hcnp
          simp at hcnp
        rw [if_pos hig] at hcnp
        have hne : ∀ j ∈ getNotProcessedInputs st0.caches files buy ign full, i ≠ j :=
          fun j hj hij => h1 (hij ▸ hj)
        have hmem1 : i ∈ (parseDirLoop env full st0 files buy ign).1.caches
            couldNotParseName :=
          fold_caches_mem env full _ (st0, 0) couldNotParseName i hcnp hne
        exfalso
        apply hpred
        apply List.mem_append_right
        rw [if_pos hig]
        exact hmem1
  have hnoop := fold_settled_noop env full hW
    (getNotProcessedInputs (parseDirLoop env full st0 files buy ign).1.caches files buy ign full)
    ((parseDirLoop env full st0 files buy ign).1, 0) hsettled
  refine ⟨hnoop.2.2, hnoop.1, hnoop.2.1, ?_⟩
  intro i hi
  simp only [getNotProcessedInputs, List.mem_filter, decide_eq_true_eq] at hi
  exact fun hm => hi.2 (List.mem_append_left _ hm)

/-- A concrete environment for the C1 witness: every file parses cleanly
into one row. -/
def c1Env : ParserEnv :=
  ⟨fun _ => ⟨false, false, "VENDA X", ["r1"], false⟩⟩

/-! ## parse.py — BaseParser, FactParser, _TransacParser, FullParser
(parse.py 288-703)

The document side of the parsers.  `BeautifulSoup` lookups are modelled by
an `Xml` oracle recording, for each tag the parsers consult, what the
lookup would yield on the parsed document; file reads are a deterministic
oracle `FsEnv` per path and encoding (the directory is unchanged while the
parser lives).  Python exceptions travel as `Except PyExc`; a function
whose Python body mutates `self` before a raise returns the mutated state
alongside the escaped exception. -/

/-- Looking up `dest`/`emit` and then `xNome` (parse.py 358-361): the outer
tag can be missing (falsy `find` result), present without `xNome` (so
`.find('xNome')` yields `None` and `.text` raises `AttributeError`), or
fully present. -/
inductive NameLookup where
  | noTag
  | noXNome
  | found (s : String)
deriving DecidableEq, Repr

/-- One `detPag` element: the `tPag` and `vPag` tag texts; `none` when the
tag is missing and `getattr(..., "text", 0)` falls back to `0`. -/
structure PayDet where
  tPag : Option PyStr
  vPag : Option PyStr
deriving DecidableEq, Repr

/-- The `ICMSTot` tag: `vNF`, `vDesc` and `vTotTrib` texts, `none` when the
nested tag is missing (`getattr` default `"0"`). -/
structure IcmsTot where
  vNF : Option PyStr
  vDesc : Option PyStr
  vTotTrib : Option PyStr
deriving DecidableEq, Repr

/-- One `det` product element, as consumed by the `_TransacParser` getters:
each field is the nested tag's text, `none` when the lookup falls back to
the `getattr`/`_get_nested_tag_text` default (`""` for the code and unit
strings, `0` for the numeric ones) — except `xProd`, which has no default
and raises `AttributeError` when missing. -/
structure DetProd where
  (cProd cEAN cEANTrib ncm cest cfop : Option PyStr)
  (qCom qTrib : Option PyStr)
  (uCom uTrib : Option PyStr)
  (xProd : Option PyStr)
  (vProd pisVBC pisVPIS cofinsVBC cofinsVCOFINS : Option PyStr)
  (vBCSTRet vICMSSTRet icmsSubstituto vBCEfet vICMSEfet : Option PyStr)
deriving DecidableEq, Repr

/-- The parsed document: what every soup lookup the parsers perform would
yield. -/
structure Xml where
  dest : NameLookup
  emit : NameLookup
  chNFe : Option PyStr
  infNFeId : Option PyStr
  refURI : Option PyStr
  dhEmi : Option PyStr
  dhEmiOk : Bool
  dhEmiVal : Int
  pag : Option (List PayDet)
  icmsTot : Option IcmsTot
  dets : List DetProd
deriving DecidableEq, Repr

/-- What `open(path, encoding=...)` + `read()` + `BeautifulSoup` yields:
the parsed document, an I/O failure (`OSError`: missing or unreadable
file), a decoding failure (`UnicodeDecodeError`), or — kept in the model
for the sake of the `except UnicodeEncodeError` arm, though CPython file
reads never produce it — an encoding failure. -/
inductive ReadResult where
  | ok (x : Xml)
  | ioErr
  | decodeErr
  | encodeErr
deriving DecidableEq, Repr

/-- The filesystem oracle: result of reading a path under an encoding
(`true` = UTF-8, which is also the locale default used by the unguarded
`open` in `_get_transac_rows`; `false` = ISO-8859-1). -/
structure FsEnv where
  read : String → Bool → ReadResult

/-- The value found under the `"path"` key: a string (`Path()` succeeds) or
a value `Path()` rejects with `TypeError`. -/
inductive PathVal where
  | pstr (s : String)
  | bad
deriving DecidableEq, Repr

/-- A dict-shaped `parser_input`: whether the `"path"`/`"buy"` keys are
present and what they hold (`bool()` never raises, so the buy value is
kept already-coerced). -/
structure PyDict where
  path : Option PathVal
  buy : Option Bool
deriving DecidableEq, Repr

/-- A caller-supplied `parser_input`: possibly not a dict at all. -/
inductive PyInput where
  | notDict
  | someDict (d : PyDict)
deriving DecidableEq, Repr

/-- A validated row appended to `self.data`: the field list a
`FactRowElem` or `TransacRowElem` accumulated. -/
inductive PRow where
  | fact (vs : List PyVal)
  | transac (vs : List PyVal)
deriving DecidableEq, Repr

/-- The parser handle: `INPUTS`, the coerced buy flag, `data`, `err`, and
the `xml` attribute (`none` both before `_get_metadata` runs and for its
tuple sentinel `(BeautifulSoup(),)`). -/
structure PState where
  input : PyInput
  buy : Bool
  data : List PRow
  err : List PyExc
  xml : Option Xml
deriving DecidableEq, Repr

/-- `BaseParser.erroed` (parse.py 331-332): `len(self.err) > 0`. -/
def erroed (st : PState) : Bool :=
  decide (0 < st.err.length)

/-- `BaseParser._parsed` (parse.py 410-412):
`self.erroed() or bool(len(self.data))`. -/
def _parsed (st : PState) : Bool :=
  erroed st || decide (0 < st.data.length)

/-- The guard `self.xml == {}` (parse.py 350): `self.xml` is either the
tuple `(BeautifulSoup(),)` or a `BeautifulSoup` document; a tuple compared
to a dict is `False`, and `Tag.__eq__` against a non-Tag falls back to
identity, also `False` — the comparison never holds. -/
def xmlEqEmptyDict : Option Xml → Bool :=
  fun _ => false

/-- `BaseParser._get_name` (parse.py 353-364): the display name, or the
caught exception to append and a `None` result; `.find` on the tuple
sentinel raises `AttributeError`, caught by the method's own handler. -/
def _get_name (xml : Option Xml) (buyer : Bool) : Option String × Option PyExc :=
  match xml with
  | none => (none, some .attributeError)
  | some x =>
    match (if buyer then x.dest else x.emit) with
    | .noTag => (some "COULD_NOT_GET_NAME", none)
    | .noXNome => (none, some .attributeError)
    | .found s =>
      (some ((if buyer then "COMPRA " else "VENDA ") ++ s.toUpper), none)

/-- The encoding loop of `_get_metadata` (parse.py 340-346): try UTF-8 then
ISO-8859-1, `break` on success; only `UnicodeEncodeError` is caught and
`continue`d, so an I/O or decoding failure propagates at once and the
Latin-1 attempt is reached only after a UTF-8 `UnicodeEncodeError`.
Returns the final `self.xml`, `none` being the untouched tuple sentinel. -/
def readLoop (env : FsEnv) (path : String) : Except PyExc (Option Xml) :=
  match env.read path true with
  | .ok x => .ok (some x)
  | .ioErr => .error .osError
  | .decodeErr => .error .unicodeDecodeError
  | .encodeErr =>
    match env.read path false with
    | .ok x => .ok (some x)
    | .ioErr => .error .osError
    | .decodeErr => .error .unicodeDecodeError
    | .encodeErr => .ok none

/-- `BaseParser._get_metadata` (parse.py 334-351): assign the tuple
sentinel, run `str(Path(self.INPUTS["path"]))` (whose `TypeError`/`KeyError`
escapes), run the encoding loop, touch `self.name` — which reads
`self.INPUTS["buy"]` (`KeyError` escapes) and whose extraction failures
`_get_name` appends itself — then the dead `self.xml == {}` check.  Returns
the mutated state and the escaped exception, if any. -/
def _get_metadata (env : FsEnv) (st : PState) : PState × Option PyExc :=
  let st0 := { st with xml := none }
  match st.input with
  | .notDict => (st0, some .typeError)
  | .someDict d =>
    match d.path with
    | none => (st0, some .keyError)
    | some .bad => (st0, some .typeError)
    | some (.pstr p) =>
      match readLoop env p with
      | .error e => (st0, some e)
      | .ok xopt =>
        let st1 := { st0 with xml := xopt }
        match d.buy with
        | none => (st1, some .keyError)
        | some b =>
          let named := _get_name xopt b
          let st2 := { st1 with
            err := st1.err ++ (match named.2 with | some e => [e] | none => []) }
          if xmlEqEmptyDict xopt then
            ({ st2 with err := st2.err ++ [.expatError] }, none)
          else (st2, none)

/-- The `try: self._get_metadata() except Exception:` tail of `__init__`
(parse.py 323-329): any escaped exception becomes one more
`ParserInitError` on `err`. -/
def runMetadataGuarded (env : FsEnv) (st : PState) : PState :=
  match _get_metadata env st with
  | (st2, some _) => { st2 with err := st2.err ++ [.parserInitError] }
  | (st2, none) => st2

/-- `BaseParser.__init__` (parse.py 291-329): total — every failure path is
caught and appended to `err` as a `ParserInitError`.  Note the
`except TypeError` arm does not `return`, so a bad path value falls through
to `_get_metadata`, whose own `TypeError` is then recorded a second time. -/
def parserInit (env : FsEnv) (inp : PyInput) : PState :=
  let st : PState := ⟨inp, false, [], [], none⟩
  match inp with
  | .notDict => { st with err := [.parserInitError] }
  | .someDict d =>
    match d.path with
    | none => { st with err := [.parserInitError] }
    | some .bad =>
      runMetadataGuarded env { st with err := [.parserInitError] }
    | some (.pstr _) =>
      match d.buy with
      | none => { st with err := [.parserInitError] }
      | some b =>
        runMetadataGuarded env { st with buy := b }

/-- The key as `doc_nfekey` extracts it from the document: `chNFe` text,
else `infNFe`'s `Id` attribute minus its 3-character prefix, else
`Reference`'s `URI` minus 4, else nothing. -/
def nfekeyOf (x : Xml) : Option PyStr :=
  match x.chNFe with
  | some v => some v
  | none =>
    match x.infNFeId with
    | some i => some (i.drop 3)
    | none =>
      match x.refURI with
      | some u => some (u.drop 4)
      | none => none

/-- `BaseParser.doc_nfekey` (parse.py 389-408): the three lookups, then a
recorded `ParserParseError` and `None`; the property is unguarded, so the
tuple sentinel's missing `.find` raises `AttributeError` past it. -/
def doc_nfekey (st : PState) : Except PyExc (Option PyStr × PState) :=
  match st.xml with
  | none => .error .attributeError
  | some x =>
    match nfekeyOf x with
    | some k => .ok (some k, st)
    | none => .ok (none, { st with err := st.err ++ [.parserParseError] })

/-- Append a `ParserParseError` and yield `None` when the pure extraction
failed — the shared `except Exception as err: self.err.append(...)` shape
of the getter methods. -/
def recordIfNone {α : Type} (o : Option α) (st : PState) : Option α × PState :=
  match o with
  | some a => (some a, st)
  | none => (none, { st with err := st.err ++ [.parserParseError] })

/-- A getter that reads `self.xml` and extracts with `f`: the tuple
sentinel's `AttributeError` and every extraction failure are caught by the
getter's own handler. -/
def getterWrap {α : Type} (f : Xml → Option α) (st : PState) : Option α × PState :=
  match st.xml with
  | none => (none, { st with err := st.err ++ [.parserParseError] })
  | some x => recordIfNone (f x) st

/-- `datetime.strptime` of the `dhEmi` text (parse.py 438-439): `None`
text raises `TypeError`, a malformed text `ValueError` (the success and
payload are the document oracle's). -/
def dtOf (x : Xml) : Option PyVal :=
  match x.dhEmi with
  | none => none
  | some _ => if x.dhEmiOk then some (.pdatetime x.dhEmiVal) else none

/-- `FactParser._get_dt` (parse.py 436-443). -/
def _get_dt (st : PState) : Option PyVal × PState :=
  getterWrap dtOf st

/-- `float(getattr(tag, "text", 0))`: the default `0` floats to `0.0`, a
text parses as a Python float literal (`ValueError` on failure). -/
def floatOfOptText : Option PyStr → Option PyNum
  | none => some (pyFloatCoerce (.pint 0))
  | some s => pyParseFloat s

/-- `int(getattr(e.find("tPag"), "text", 0))` (parse.py 427). -/
def payTypeOf (d : PayDet) : Option PyNum :=
  match d.tPag with
  | none => some (.pint 0)
  | some s => (pyParseInt s).map .pint

/-- `float(getattr(e.find("vPag"), "text", 0))` (parse.py 428). -/
def payValOf (d : PayDet) : Option PyNum :=
  floatOfOptText d.vPag

/-- The extraction of `_get_pay` (parse.py 423-432): a missing `pag` tag
makes `None("detPag")` raise `TypeError`, an empty list raises
`ParserParseError`, then types before amounts, both serialized. -/
def payOf (x : Xml) : Option (PyStr × PyStr) :=
  match x.pag with
  | none => none
  | some pays =>
    if pays.isEmpty then none
    else
      match pays.mapM payTypeOf with
      | none => none
      | some ts =>
        match pays.mapM payValOf with
        | none => none
        | some vs =>
          some (convert_to_list_of_numbers ts, convert_to_list_of_numbers vs)

/-- `FactParser._get_pay` (parse.py 421-434). -/
def _get_pay (st : PState) : Option (PyStr × PyStr) × PState :=
  getterWrap payOf st

/-- The extraction of `_get_total` (parse.py 446-455): a missing `ICMSTot`
raises, the three texts default to `"0"`. -/
def totalOf (x : Xml) : Option (PyStr × PyStr × PyStr) :=
  match x.icmsTot with
  | none => none
  | some t => some (t.vNF.getD ['0'], t.vDesc.getD ['0'], t.vTotTrib.getD ['0'])

/-- `FactParser._get_total` (parse.py 445-459). -/
def _get_total (st : PState) : Option (PyStr × PyStr × PyStr) × PState :=
  getterWrap totalOf st

/-- The body of `_get_fact_rows` after the unguarded `doc_nfekey` access
(parse.py 463-488): gather the remaining pieces, record and bail out if any
is `None`, then validate through `FactRowElem` — every path from here on is
caught. -/
def factRowsCore (ks : Option PyStr × PState) : Option (List PRow) × PState :=
  let r2 := _get_dt ks.2
  let r3 := _get_pay r2.2
  let r4 := _get_total r3.2
  match ks.1, r2.1, r3.1, r4.1 with
  | some k, some dtv, some pv, some tv =>
    match mkFactRowElem ⟨.pstr k, dtv, .pstr pv.1, .pstr pv.2,
        .pstr tv.1, .pstr tv.2.1, .pstr tv.2.2⟩ with
    | .ok vs => (some [.fact vs], r4.2)
    | .error _ =>
      (none, { r4.2 with err := r4.2.err ++ [.parserValidationError] })
  | _, _, _, _ =>
    (none, { r4.2 with err := r4.2.err ++ [.parserParseError] })

/-- `FactParser._get_fact_rows` (parse.py 461-488): `doc_nfekey` is read
outside any `try`, so its `AttributeError` on the tuple sentinel escapes;
everything after it is total. -/
def _get_fact_rows (st : PState) : Except PyExc (Option (List PRow) × PState) :=
  match doc_nfekey st with
  | .error e => .error e
  | .ok ks => .ok (factRowsCore ks)

/-- `FactParser.parse` (parse.py 490-495). -/
def factParse (st : PState) : Except PyExc PState :=
  if _parsed st then .ok st
  else
    match _get_fact_rows st with
    | .error e => .error e
    | .ok (some rows, st1) => .ok { st1 with data := st1.data ++ rows }
    | .ok (none, st1) => .ok st1

/-- One product's identification codes (parse.py 514-524), `getattr`
defaults `""`; the parsed-but-unused `cEANTrib` is dropped.  The
comprehension handles strings only and cannot fail. -/
def codesOf (p : DetProd) : PyStr × PyStr × PyStr × PyStr × PyStr :=
  (p.cProd.getD [], p.cEAN.getD [], p.ncm.getD [], p.cest.getD [], p.cfop.getD [])

/-- `_TransacParser._get_product_codes` (parse.py 499-528). -/
def _get_product_codes (dets : List DetProd) : List (PyStr × PyStr × PyStr × PyStr × PyStr) :=
  dets.map codesOf

/-- A getter over the product list: `None` plus a recorded error when the
comprehension raised. -/
def mapGetter {α : Type} (g : DetProd → Option α) (dets : List DetProd)
    (st : PState) : Option (List α) × PState :=
  recordIfNone (dets.mapM g) st

/-- `_TransacParser._get_product_desc` (parse.py 530-542):
`product.find("xProd").text` with no default — a missing tag raises. -/
def _get_product_desc (dets : List DetProd) (st : PState) : Option (List PyStr) × PState :=
  mapGetter (fun p => p.xProd) dets st

/-- One product's amounts (parse.py 558-564): two floats with default `0`,
two unit strings with default `""`. -/
def amountOf (p : DetProd) : Option (PyNum × PyNum × PyStr × PyStr) := do
  let q ← floatOfOptText p.qCom
  let t ← floatOfOptText p.qTrib
  return (q, t, p.uCom.getD [], p.uTrib.getD [])

/-- `_TransacParser._get_product_amount` (parse.py 544-570). -/
def _get_product_amount (dets : List DetProd) (st : PState) :
    Option (List (PyNum × PyNum × PyStr × PyStr)) × PState :=
  mapGetter amountOf dets st

/-- One product's tax figures (parse.py 594-630): ten
`float(self._get_nested_tag_text(..., default=0))` values. -/
structure TaxInfo where
  (vund bpis vpis bcofins vcofins bricms vricms vsicms bicms vicms : PyNum)
deriving DecidableEq, Repr

def taxInfoOf (p : DetProd) : Option TaxInfo := do
  let a1 ← floatOfOptText p.vProd
  let a2 ← floatOfOptText p.pisVBC
  let a3 ← floatOfOptText p.pisVPIS
  let a4 ← floatOfOptText p.cofinsVBC
  let a5 ← floatOfOptText p.cofinsVCOFINS
  let a6 ← floatOfOptText p.vBCSTRet
  let a7 ← floatOfOptText p.vICMSSTRet
  let a8 ← floatOfOptText p.icmsSubstituto
  let a9 ← floatOfOptText p.vBCEfet
  let a10 ← floatOfOptText p.vICMSEfet
  return ⟨a1, a2, a3, a4, a5, a6, a7, a8, a9, a10⟩

/-- `_TransacParser._get_product_tax_info` (parse.py 572-634). -/
def _get_product_tax_info (dets : List DetProd) (st : PState) :
    Option (List TaxInfo) × PState :=
  mapGetter taxInfoOf dets st

/-- One `TransacRowElem(...)` construction from the zipped pieces
(parse.py 655-677). -/
def mkTransacRow (k : PyStr) (c : PyStr × PyStr × PyStr × PyStr × PyStr)
    (a : PyNum × PyNum × PyStr × PyStr) (n : PyStr) (t : TaxInfo) :
    Except PyExc (List PyVal) :=
  mkTransacRowElem ⟨.pstr k, .pstr c.1, .pstr c.2.1, .pstr c.2.2.1,
    .pstr c.2.2.2.1, .pstr c.2.2.2.2,
    .pnum a.1, .pnum a.2.1, .pstr a.2.2.1, .pstr a.2.2.2, .pstr n,
    .pnum t.vund, .pnum t.bpis, .pnum t.vpis, .pnum t.bcofins, .pnum t.vcofins,
    .pnum t.bricms, .pnum t.vricms, .pnum t.vsicms, .pnum t.bicms, .pnum t.vicms⟩

/-- The `for ... in zip(...)` loop of `_get_transac_rows` (parse.py
652-678): builds a row per product, stops at the shortest list, and lets
the first validation failure escape to the surrounding `except`. -/
def mkTransacRows : PyStr → List (PyStr × PyStr × PyStr × PyStr × PyStr) →
    List (PyNum × PyNum × PyStr × PyStr) → List PyStr → List TaxInfo →
    Except PyExc (List PRow)
  | k, c :: cl, a :: al, n :: nl, t :: tl => do
    let vs ← mkTransacRow k c a n t
    let rest ← mkTransacRows k cl al nl tl
    return PRow.transac vs :: rest
  | _, _, _, _, _ => .ok []

/-- The body of `_get_transac_rows` after the re-read and the unguarded
`doc_nfekey` access (parse.py 642-683): gather codes, amounts, names and
tax infos, bail out (recording) if any is `None`, and validate each product
row — every path from here on is caught. -/
def transacRowsCore (soup : Xml) (ks : Option PyStr × PState) :
    Option (List PRow) × PState :=
  let dets := soup.dets
  let codes := _get_product_codes dets
  let r2 := _get_product_amount dets ks.2
  let r3 := _get_product_desc dets r2.2
  let r4 := _get_product_tax_info dets r3.2
  match ks.1, r2.1, r3.1, r4.1 with
  | some k, some ams, some ns, some txs =>
    match mkTransacRows k codes ams ns txs with
    | .ok rows => (some rows, r4.2)
    | .error _ =>
      (none, { r4.2 with err := r4.2.err ++ [.parserValidationError] })
  | _, _, _, _ =>
    (none, { r4.2 with err := r4.2.err ++ [.parserParseError] })

/-- `_TransacParser._get_transac_rows` (parse.py 636-683): re-opens the
file with the default encoding OUTSIDE any `try` — an `OSError` or
`UnicodeDecodeError` here escapes `parse()` — then gathers the pieces. -/
def _get_transac_rows (env : FsEnv) (st : PState) :
    Except PyExc (Option (List PRow) × PState) :=
  match st.input with
  | .notDict => .error .typeError
  | .someDict d =>
    match d.path with
    | none => .error .keyError
    | some .bad => .error .typeError
    | some (.pstr p) =>
      match env.read p true with
      | .ioErr => .error .osError
      | .decodeErr => .error .unicodeDecodeError
      | .encodeErr => .error .unicodeEncodeError
      | .ok soup =>
        match doc_nfekey st with
        | .error e => .error e
        | .ok ks => .ok (transacRowsCore soup ks)

/-- `_TransacParser.parse` (parse.py 685-690). -/
def transacParse (env : FsEnv) (st : PState) : Except PyExc PState :=
  if _parsed st then .ok st
  else
    match _get_transac_rows env st with
    | .error e => .error e
    | .ok (some rows, st1) => .ok { st1 with data := st1.data ++ rows }
    | .ok (none, st1) => .ok st1

/-- `FullParser.parse` (parse.py 693-702): both extractions run, then both
row lists are appended in order. -/
def fullParse (env : FsEnv) (st : PState) : Except PyExc PState :=
  if _parsed st then .ok st
  else
    match _get_fact_rows st with
    | .error e => .error e
    | .ok fr =>
      match _get_transac_rows env fr.2 with
      | .error e => .error e
      | .ok tr =>
        let st3 := match fr.1 with
          | some rs => { tr.2 with data := tr.2.data ++ rs }
          | none => tr.2
        .ok (match tr.1 with
          | some rs => { st3 with data := st3.data ++ rs }
          | none => st3)

/-! ### Parser-side lemmas -/

theorem erroed_false_iff (st : PState) : erroed st = false ↔ st.err = [] := by
  simp [erroed, List.length_eq_zero]

theorem recordIfNone_input {α : Type} (o : Option α) (st : PState) :
    ((recordIfNone o st).2).input = st.input := by
  unfold recordIfNone
  split <;> rfl

theorem recordIfNone_xml {α : Type} (o : Option α) (st : PState) :
    ((recordIfNone o st).2).xml = st.xml := by
  unfold recordIfNone
  split <;> rfl

theorem getterWrap_input {α : Type} (f : Xml → Option α) (st : PState) :
    ((getterWrap f st).2).input = st.input := by
  unfold getterWrap
  split
  · rfl
  · exact recordIfNone_input _ _

theorem getterWrap_xml {α : Type} (f : Xml → Option α) (st : PState) :
    ((getterWrap f st).2).xml = st.xml := by
  unfold getterWrap
  split
  · rfl
  · exact recordIfNone_xml _ _

theorem factRowsCore_input (ks : Option PyStr × PState) :
    ((factRowsCore ks).2).input = ks.2.input := by
  simp only [factRowsCore]
  split
  · split <;> simp [_get_dt, _get_pay, _get_total, getterWrap_input]
  · simp [_get_dt, _get_pay, _get_total, getterWrap_input]

theorem factRowsCore_xml (ks : Option PyStr × PState) :
    ((factRowsCore ks).2).xml = ks.2.xml := by
  simp only [factRowsCore]
  split
  · split <;> simp [_get_dt, _get_pay, _get_total, getterWrap_xml]
  · simp [_get_dt, _get_pay, _get_total, getterWrap_xml]

theorem doc_nfekey_of_some (st : PState) (x : Xml) (hx : st.xml = some x) :
    ∃ k s1, doc_nfekey st = .ok (k, s1) ∧ s1.input = st.input ∧ s1.xml = st.xml := by
  simp only [doc_nfekey, hx]
  cases hnk : nfekeyOf x
  · exact ⟨none, _, rfl, rfl, rfl⟩
  · exact ⟨some _, st, rfl, rfl, hx⟩

theorem fact_rows_of_some (st : PState) (x : Xml) (hx : st.xml = some x) :
    ∃ r, _get_fact_rows st = .ok r ∧ r.2.input = st.input ∧ r.2.xml = st.xml := by
  obtain ⟨k, s1, hk, hi, hx1⟩ := doc_nfekey_of_some st x hx
  refine ⟨factRowsCore (k, s1), ?_, ?_, ?_⟩
  · simp only [_get_fact_rows, hk]
  · rw [factRowsCore_input]
    exact hi
  · rw [factRowsCore_xml]
    exact hx1

theorem transac_rows_of (env : FsEnv) (st : PState) (p : String) (b : Bool)
    (soup x : Xml) (hinp : st.input = .someDict ⟨some (.pstr p), some b⟩)
    (hrd : env.read p true = .ok soup) (hx : st.xml = some x) :
    ∃ r, _get_transac_rows env st = .ok r := by
  obtain ⟨k, s1, hk, hi, hx1⟩ := doc_nfekey_of_some st x hx
  refine ⟨transacRowsCore soup (k, s1), ?_⟩
  simp only [_get_transac_rows, hinp, hrd, hk]

/-- A parser whose `__init__` recorded no error read its document with the
UTF-8 attempt (given that reads never raise `UnicodeEncodeError`, which
CPython file reads cannot), and its final state is fully determined. -/
theorem clean_init (env : FsEnv)
    (henc : ∀ p e, env.read p e ≠ ReadResult.encodeErr) (inp : PyInput)
    (h : erroed (parserInit env inp) = false) :
    ∃ p b x, inp = .someDict ⟨some (.pstr p), some b⟩ ∧
      env.read p true = ReadResult.ok x ∧
      parserInit env inp = ⟨inp, b, [], [], some x⟩ := by
  match inp with
  | .notDict => simp [parserInit, erroed] at h
  | .someDict ⟨none, bo⟩ => simp [parserInit, erroed] at h
  | .someDict ⟨some .bad, bo⟩ =>
    simp [parserInit, runMetadataGuarded, _get_metadata, erroed] at h
  | .someDict ⟨some (.pstr p), none⟩ => simp [parserInit, erroed] at h
  | .someDict ⟨some (.pstr p), some b⟩ =>
    refine ⟨p, b, ?_⟩
    cases hr : env.read p true with
    | ok x =>
      refine ⟨x, rfl, rfl, ?_⟩
      simp only [parserInit, runMetadataGuarded, _get_metadata, readLoop, hr] at h ⊢
      cases hlk : (if b then x.dest else x.emit) with
      | noTag => simp [_get_name, hlk, xmlEqEmptyDict] at h ⊢
      | noXNome => simp [_get_name, hlk, xmlEqEmptyDict, erroed] at h
      | found s => simp [_get_name, hlk, xmlEqEmptyDict] at h ⊢
    | ioErr =>
      simp [parserInit, runMetadataGuarded, _get_metadata, readLoop, hr, erroed] at h
    | decodeErr =>
      simp [parserInit, runMetadataGuarded, _get_metadata, readLoop, hr, erroed] at h
    | encodeErr => exact absurd hr (henc p true)

/-- Claim C3: for every caller-supplied input — non-dict values, inputs
with missing `path`/`buy` keys, mistyped path fields, paths to missing,
unreadable or undecodable files — constructing a parser and invoking any
of the three `parse()` variants never lets an exception escape, and every
such failing input is reported through `erroed()`.  The hypothesis `henc`
says reads never raise `UnicodeEncodeError`, which CPython file reads
cannot produce. -/
theorem c3_parse_never_raises (env : FsEnv)
    (henc : ∀ p e, env.read p e ≠ ReadResult.encodeErr) (inp : PyInput) :
    (∃ st, factParse (parserInit env inp) = .ok st) ∧
    (∃ st, transacParse env (parserInit env inp) = .ok st) ∧
    (∃ st, fullParse env (parserInit env inp) = .ok st) ∧
    (inp = .notDict → erroed (parserInit env inp) = true) ∧
    (∀ d, inp = .someDict d →
      (d.path = none ∨ d.path = some .bad ∨ d.buy = none) →
      erroed (parserInit env inp) = true) ∧
    (∀ p b, inp = .someDict ⟨some (.pstr p), some b⟩ →
      (∀ x, env.read p true ≠ ReadResult.ok x) →
      erroed (parserInit env inp) = true) := by
  have hnr : (∃ st, factParse (parserInit env inp) = .ok st) ∧
      (∃ st, transacParse env (parserInit env inp) = .ok st) ∧
      (∃ st, fullParse env (parserInit env inp) = .ok st) := by
    by_cases hpd : _parsed (parserInit env inp) = true
    · exact ⟨⟨parserInit env inp, by simp [factParse, hpd]⟩,
        ⟨parserInit env inp, by simp [transacParse, hpd]⟩,
        ⟨parserInit env inp, by simp [fullParse, hpd]⟩⟩
    · have herr : erroed (parserInit env inp) = false := by
        cases he : erroed (parserInit env inp)
        · rfl
        · exact absurd (by simp [_parsed, he]) hpd
      obtain ⟨p, b, x, hinp, hrd, hstate⟩ := clean_init env henc inp herr
      have hxml : (parserInit env inp).xml = some x := by rw [hstate]
      have hinp2 : (parserInit env inp).input = .someDict ⟨some (.pstr p), some b⟩ := by
        rw [hstate]
        exact hinp
      refine ⟨?_, ?_, ?_⟩
      · obtain ⟨r, hr2, _, _⟩ := fact_rows_of_some _ x hxml
        rcases r with ⟨o, st1⟩
        cases o with
        | none => exact ⟨st1, by simp [factParse, hpd, hr2]⟩
        | some rows =>
          exact ⟨{ st1 with data := st1.data ++ rows }, by simp [factParse, hpd, hr2]⟩
      · obtain ⟨r, hr2⟩ := transac_rows_of env _ p b x x hinp2 hrd hxml
        rcases r with ⟨o, st1⟩
        cases o with
        | none => exact ⟨st1, by simp [transacParse, hpd, hr2]⟩
        | some rows =>
          exact ⟨{ st1 with data := st1.data ++ rows }, by simp [transacParse, hpd, hr2]⟩
      · obtain ⟨r, hr2, hri, hrx⟩ := fact_rows_of_some _ x hxml
        have hinp3 : r.2.input = .someDict ⟨some (.pstr p), some b⟩ := by
          rw [hri]
          exact hinp2
        have hx3 : r.2.xml = some x := by
          rw [hrx]
          exact hxml
        obtain ⟨r2, hr3⟩ := transac_rows_of env r.2 p b x x hinp3 hrd hx3
        cases hF : fullParse env (parserInit env inp) with
        | error e =>
          exfalso
          simp [fullParse, hpd, hr2, hr3] at hF
        | ok stv => exact ⟨stv, rfl⟩
  refine ⟨hnr.1, hnr.2.1, hnr.2.2, ?_, ?_, ?_⟩
  · intro h
    subst h
    simp [parserInit, erroed]
  · rintro ⟨po, bo⟩ rfl hcase
    rcases hcase with h | h | h
    · rw [show (PyDict.mk po bo).path = po from rfl] at h
      subst h
      simp [parserInit, erroed]
    · rw [show (PyDict.mk po bo).path = po from rfl] at h
      subst h
      simp [parserInit, runMetadataGuarded, _get_metadata, erroed]
    · rw [show (PyDict.mk po bo).buy = bo from rfl] at h
      subst h
      match po with
      | none => simp [parserInit, erroed]
      | some .bad => simp [parserInit, runMetadataGuarded, _get_metadata, erroed]
      | some (.pstr p) => simp [parserInit, erroed]
  · rintro p b rfl hniok
    cases hr : env.read p true with
    | ok x => exact absurd hr (hniok x)
    | ioErr =>
      simp [parserInit, runMetadataGuarded, _get_metadata, readLoop, hr, erroed]
    | decodeErr =>
      simp [parserInit, runMetadataGuarded, _get_metadata, readLoop, hr, erroed]
    | encodeErr => exact absurd hr (henc p true)

/-- A concrete document for the C3 witness. -/
def c3Xml : Xml :=
  ⟨.found "S", .found "S", some ['1'], none, none, none, false, 0, none, none, []⟩

/-- A concrete filesystem for the C3 witness: every read succeeds. -/
def c3Env : FsEnv := ⟨fun _ _ => .ok c3Xml⟩

/-- Witness for `c3_parse_never_raises` at a concrete well-formed input. -/
theorem c3_parse_never_raises_witness :
    (∃ st, factParse (parserInit c3Env (.someDict ⟨some (.pstr "a"), some true⟩)) = .ok st) ∧
    (∃ st, transacParse c3Env
      (parserInit c3Env (.someDict ⟨some (.pstr "a"), some true⟩)) = .ok st) ∧
    (∃ st, fullParse c3Env
      (parserInit c3Env (.someDict ⟨some (.pstr "a"), some true⟩)) = .ok st) ∧
    (PyInput.someDict ⟨some (.pstr "a"), some true⟩ = .notDict →
      erroed (parserInit c3Env (.someDict ⟨some (.pstr "a"), some true⟩)) = true) ∧
    (∀ d, PyInput.someDict ⟨some (.pstr "a"), some true⟩ = .someDict d →
      (d.path = none ∨ d.path = some .bad ∨ d.buy = none) →
      erroed (parserInit c3Env (.someDict ⟨some (.pstr "a"), some true⟩)) = true) ∧
    (∀ p b, PyInput.someDict ⟨some (.pstr "a"), some true⟩ =
        .someDict ⟨some (.pstr p), some b⟩ →
      (∀ x, c3Env.read p true ≠ ReadResult.ok x) →
      erroed (parserInit c3Env (.someDict ⟨some (.pstr "a"), some true⟩)) = true) :=
  c3_parse_never_raises c3Env (by intro p e; simp [c3Env])
    (.someDict ⟨some (.pstr "a"), some true⟩)

/-- Claim C6 (refuted): the spec says UTF-8 then Latin-1 are attempted in
order, stopping at the first success, with a document-read error recorded
when every encoding fails.  In the code the loop catches only
`UnicodeEncodeError`, so a UTF-8 `UnicodeDecodeError` aborts init before
the Latin-1 attempt even when the file reads fine as Latin-1; and the
`self.xml == {}` guard compares a tuple or soup against a dict and never
holds, so the `ExpatError` of line 351 is appended to no handle, ever. -/
theorem c6_encoding_fallback_dead :
    (∀ (env : FsEnv) (inp : PyInput), PyExc.expatError ∉ (parserInit env inp).err) ∧
    (∀ (env : FsEnv) (p : String) (b : Bool) (x : Xml),
      env.read p true = ReadResult.decodeErr → env.read p false = ReadResult.ok x →
      erroed (parserInit env (.someDict ⟨some (.pstr p), some b⟩)) = true ∧
      (parserInit env (.someDict ⟨some (.pstr p), some b⟩)).xml = none) := by
  constructor
  · intro env inp
    match inp with
    | .notDict => simp [parserInit]
    | .someDict ⟨none, bo⟩ => simp [parserInit]
    | .someDict ⟨some .bad, bo⟩ =>
      simp [parserInit, runMetadataGuarded, _get_metadata]
    | .someDict ⟨some (.pstr p), none⟩ => simp [parserInit]
    | .someDict ⟨some (.pstr p), some b⟩ =>
      cases hr : env.read p true with
      | ok x =>
        cases hlk : (if b then x.dest else x.emit) with
        | noTag =>
          simp [parserInit, runMetadataGuarded, _get_metadata, readLoop, hr,
            _get_name, hlk, xmlEqEmptyDict]
        | noXNome =>
          simp [parserInit, runMetadataGuarded, _get_metadata, readLoop, hr,
            _get_name, hlk, xmlEqEmptyDict]
        | found s =>
          simp [parserInit, runMetadataGuarded, _get_metadata, readLoop, hr,
            _get_name, hlk, xmlEqEmptyDict]
      | ioErr =>
        simp [parserInit, runMetadataGuarded, _get_metadata, readLoop, hr]
      | decodeErr =>
        simp [parserInit, runMetadataGuarded, _get_metadata, readLoop, hr]
      | encodeErr =>
        cases hr2 : env.read p false with
        | ok x =>
          cases hlk : (if b then x.dest else x.emit) with
          | noTag =>
            simp [parserInit, runMetadataGuarded, _get_metadata, readLoop, hr, hr2,
              _get_name, hlk, xmlEqEmptyDict]
          | noXNome =>
            simp [parserInit, runMetadataGuarded, _get_metadata, readLoop, hr, hr2,
              _get_name, hlk, xmlEqEmptyDict]
          | found s =>
            simp [parserInit, runMetadataGuarded, _get_metadata, readLoop, hr, hr2,
              _get_name, hlk, xmlEqEmptyDict]
        | ioErr =>
          simp [parserInit, runMetadataGuarded, _get_metadata, readLoop, hr, hr2]
        | decodeErr =>
          simp [parserInit, runMetadataGuarded, _get_metadata, readLoop, hr, hr2]
        | encodeErr =>
          simp [parserInit, runMetadataGuarded, _get_metadata, readLoop, hr, hr2,
            _get_name, xmlEqEmptyDict]
  · intro env p b x hu hl
    constructor
    · simp [parserInit, runMetadataGuarded, _get_metadata, readLoop, hu, erroed]
    · simp [parserInit, runMetadataGuarded, _get_metadata, readLoop, hu]

/-- A concrete document for the C6 witness. -/
def c6Xml : Xml := ⟨.noTag, .noTag, none, none, none, none, false, 0, none, none, []⟩

/-- A concrete filesystem for the C6 witness: UTF-8 decoding fails, the
Latin-1 read succeeds. -/
def c6Env : FsEnv := ⟨fun _ e => if e then .decodeErr else .ok c6Xml⟩

/-- Witness for `c6_encoding_fallback_dead` at a Latin-1-only file. -/
theorem c6_encoding_fallback_dead_witness :
    PyExc.expatError ∉ (parserInit c6Env (.someDict ⟨some (.pstr "a"), some true⟩)).err ∧
    erroed (parserInit c6Env (.someDict ⟨some (.pstr "a"), some true⟩)) = true ∧
    (parserInit c6Env (.someDict ⟨some (.pstr "a"), some true⟩)).xml = none :=
  ⟨c6_encoding_fallback_dead.1 c6Env _,
   (c6_encoding_fallback_dead.2 c6Env "a" true c6Xml rfl rfl).1,
   (c6_encoding_fallback_dead.2 c6Env "a" true c6Xml rfl rfl).2⟩

/-- Claim C7: a handle in a terminal state — nonempty `err` or nonempty
`data` — is never re-parsed: all three `parse()` variants return the state
unchanged whatever the filesystem now yields (no re-read, no
re-extraction). -/
theorem c7_terminal_parse_noop (env : FsEnv) (st : PState)
    (h : st.err ≠ [] ∨ st.data ≠ []) :
    factParse st = .ok st ∧ transacParse env st = .ok st ∧ fullParse env st = .ok st := by
  have hp : _parsed st = true := by
    rcases h with h | h
    · simp [_parsed, erroed, List.length_pos.mpr h]
    · simp [_parsed, List.length_pos.mpr h]
  exact ⟨by simp [factParse, hp], by simp [transacParse, hp], by simp [fullParse, hp]⟩

/-- A filesystem for the C7 witness on which any read would fail. -/
def c7Env : FsEnv := ⟨fun _ _ => .ioErr⟩

/-- A handle in a terminal state for the C7 witness. -/
def c7St : PState := ⟨.notDict, false, [], [.valueError], none⟩

/-- Witness for `c7_terminal_parse_noop` at a concrete erroed handle. -/
theorem c7_terminal_parse_noop_witness :
    factParse c7St = .ok c7St ∧ transacParse c7Env c7St = .ok c7St ∧
    fullParse c7Env c7St = .ok c7St :=
  c7_terminal_parse_noop c7Env c7St (Or.inl (by simp [c7St]))

/-- `parseDirLoop_idempotent` evaluated on a one-file directory starting
from the empty state. -/
theorem parseDirLoop_idempotent_example :
    (parseDirLoop c1Env true (parseDirLoop c1Env true emptyOState ["a.xml"] true true).1
      ["a.xml"] true true).2 = 0 ∧
    (parseDirLoop c1Env true (parseDirLoop c1Env true emptyOState ["a.xml"] true true).1
      ["a.xml"] true true).1.caches =
      (parseDirLoop c1Env true emptyOState ["a.xml"] true true).1.caches ∧
    (parseDirLoop c1Env true (parseDirLoop c1Env true emptyOState ["a.xml"] true true).1
      ["a.xml"] true true).1.db =
      (parseDirLoop c1Env true emptyOState ["a.xml"] true true).1.db ∧
    ∀ i ∈ getNotProcessedInputs
        (parseDirLoop c1Env true emptyOState ["a.xml"] true true).1.caches
        ["a.xml"] true true true,
      i ∉ (parseDirLoop c1Env true emptyOState ["a.xml"] true true).1.caches
        (successCacheName true) :=
  parseDirLoop_idempotent c1Env true true true ["a.xml"] emptyOState
    (by
      intro i
      show (false = true → (["r1"] : List Row) = []) ∧
        "VENDA X" ≠ successCacheName true ∧ "VENDA X" ≠ successCacheName false ∧
        "VENDA X" ≠ couldNotParseName
      decide) _ rfl

/-- Claim C1 (refuted by a crash): `parse_dir` never reaches its parsing
loop.  Its constructor call `cache.ParserManipulator(full_parse=full_parse,
con=con)` (api.py 117) raises `TypeError` because `ParserManipulator.__init__`
(cache.py 241) accepts only `full_parse`, and the surrounding `try` guards
only `KeyboardInterrupt` — so every invocation, first run or second, fails
with `TypeError` after listing the directory and snapshotting the caches,
before any file is read, parsed or inserted, for every environment, state
and directory; in particular no run ever returns a result. -/
theorem c1_parse_dir_crashes (env : ParserEnv) (full buy ign : Bool)
    (files : List String) (st : OState) :
    parse_dir env full st files buy ign = .error .typeError ∧
    ∀ r, parse_dir env full st files buy ign ≠ .ok r := by
  refine ⟨rfl, fun r h => ?_⟩
  rw [show parse_dir env full st files buy ign = .error .typeError from rfl] at h
  exact Except.noConfusion h

end NFLogic
